import Mathlib

/-!
Verification development for the core concurrency primitives of the
`asyncronaut` toolkit: the bounded-concurrency task queue
(`src/common/task-queue.ts`), the concurrent resource pool
(`src/common/concurrent-pool.ts`) and the `withTimeout` combinator
(`src/common/promises.ts`).

The TypeScript source is shallowly embedded as Lean definitions:

* JavaScript objects become structures; object identity is tracked through
  the unique numeric ids the source itself allocates (`uuid()` /
  `this._nextId++`), so reference equality (`!==`) is modelled as id
  disequality and `Array.prototype.includes` as id membership.
* The single-threaded event-loop execution is modelled as a small-step
  event semantics: every synchronous handler of the source becomes a pure
  state-transition function, and asynchronous callbacks (promise
  settlement, abort-signal listeners) become events that invoke those
  handlers.  The settled-once behaviour of a promise is tracked by an
  explicit `raceSettled` flag, mirroring the fact that the
  `withTimeout(...).then(...).catch(...)` chain in `_process` fires at
  most once.
* The injected clock (`dateNow()` / `wallTime.now()`) is modelled by a
  timestamp argument carried by each event; one sample is used for all
  `now()` calls inside one synchronous step.
* Queue-level `"error"` emissions and garbage-collection evictions are
  recorded in ghost log fields (`errorEvents`, `evictLog`,
  `completionLog`, `wokenLog`); they add observability and never influence
  control flow.
-/

namespace Asyncronaut

/-- JavaScript values that appear as rejection reasons / abort reasons in
the embedded fragment.  `taskFailureError` represents an instance of the
`TaskFailureError` class (only its `instanceof` identity matters to the
control flow being verified); `jsError n` represents any other `Error`
value and `undef` represents `undefined`. -/
inductive JsVal where
  | undef : JsVal
  | abortError : JsVal
  | timeoutError : JsVal
  | taskFailureError : JsVal
  | jsError : Nat → JsVal
deriving DecidableEq, Repr

/-! ## Stable sorting by a numeric key

`Array.prototype.sort` with comparator `(a, b) => keyA - keyB` is a stable
ascending sort (ES2019).  We model it with a stable insertion sort: an
element is inserted after every element whose key is less than or equal to
its own, so elements with equal keys keep their original relative order. -/

/-- Insert `x` into a (sorted) list, placing it before the first element
whose key is strictly greater than the key of `x`. -/
def insertByKey {α κ : Type} [LinearOrder κ] (key : α → κ) (x : α) :
    List α → List α
  | [] => [x]
  | y :: ys => if key x < key y then x :: y :: ys else y :: insertByKey key x ys

/-- Stable ascending sort by `key`; models `Array.prototype.sort` with the
comparator `(a, b) => key a - key b`. -/
def stableSortByKey {α κ : Type} [LinearOrder κ] (key : α → κ) (l : List α) :
    List α :=
  l.foldl (fun acc x => insertByKey key x acc) []

namespace TaskQueueModel

/-- `TaskState` from `task-queue.ts`. -/
inductive TaskState where
  | queued | active | cancelled | succeeded | failed
deriving DecidableEq, Repr

/-- `QueueState` from `task-queue.ts`. -/
inductive QueueState where
  | running | paused | draining | drained
deriving DecidableEq, Repr

/-- The subset of `QueueOptions` that drives the embedded control flow.
`onTask` itself is external user code; its outcomes surface as settle
events.  `dateNow` is the injected clock, surfaced as per-event
timestamps. -/
structure QueueOptions where
  maxConcurrentTasks : Nat
  maxCompletedTaskMemory : Nat
deriving DecidableEq, Repr

/-- An `InternalTaskRef`.  `error = some r` models
`error = TaskFailureError(taskRef, r)`; `abortReason = some r` models an
aborted `AbortSignal` with `signal.reason = r`; `raceSettled` records that
the task's `withTimeout(onTask(...))` promise has settled (so its
`.then`/`.catch` continuations have already fired); `completedResolved`
records that `completedPromiseDecomposed.resolve()` ran; `listeners` is
the number of progress listeners registered on `eventEmitter`. -/
structure Task where
  id : Nat
  state : TaskState
  queuedAt : Nat
  completedAt : Option Nat
  output : Option Nat
  error : Option JsVal
  abortReason : Option JsVal
  raceSettled : Bool
  completedResolved : Bool
  listeners : Nat
deriving DecidableEq, Repr

/-- The state of a `TaskQueue` instance: the queue state, the five task
buckets of `this._tasks` (in array order), the id allocator, and ghost
observability logs (`errorEvents` counts queue-level `"error"` emissions;
`evictLog` records tasks evicted by GC, after listener detachment;
`completionLog` records task ids in order of terminal transition). -/
structure QueueSt where
  qstate : QueueState
  queued : List Task
  active : List Task
  cancelled : List Task
  failed : List Task
  succeeded : List Task
  nextId : Nat
  errorEvents : Nat
  evictLog : List Task
  completionLog : List Nat
deriving DecidableEq, Repr

/-- The initial state of a freshly constructed `TaskQueue`. -/
def initQueue : QueueSt :=
  { qstate := .paused, queued := [], active := [], cancelled := [],
    failed := [], succeeded := [], nextId := 1, errorEvents := 0,
    evictLog := [], completionLog := [] }

/-- All task objects currently held in the queue's buckets. -/
def allTasks (st : QueueSt) : List Task :=
  st.queued ++ st.active ++ st.cancelled ++ st.failed ++ st.succeeded

/-- Looks up the task object with the given id (dereferencing the shared
`taskRef` that the source's closures capture). -/
def findTask (st : QueueSt) (id : Nat) : Option Task :=
  (allTasks st).find? (fun t => t.id = id)

/-- Applies `f` to the task object with the given id, wherever it lives;
models an in-place mutation of the shared `taskRef` object. -/
def updTask (f : Task → Task) (id : Nat) (st : QueueSt) : QueueSt :=
  let g : Task → Task := fun t => if t.id = id then f t else t
  { st with
    queued := st.queued.map g, active := st.active.map g,
    cancelled := st.cancelled.map g, failed := st.failed.map g,
    succeeded := st.succeeded.map g }

/-- The sort key `(a.completedAt || Infinity)` used by
`_garbageCollectCompletedTasks`: `undefined` maps to `Infinity`, and —
because `0` is falsy in JavaScript — so does a completion timestamp of
`0`. -/
def gcKey (t : Task) : WithTop Nat :=
  match t.completedAt with
  | some n => if n = 0 then (⊤ : WithTop Nat) else (n : WithTop Nat)
  | none => (⊤ : WithTop Nat)

/-- One step of the GC eviction loop: `removeAllListeners()` on the
task's emitter and `this._tasks[taskRef.state] =
this._tasks[taskRef.state].filter((ref) => taskRef !== ref)`.  The
detached task is recorded in the ghost `evictLog`. -/
def evictTask (st : QueueSt) (t : Task) : QueueSt :=
  let rm : List Task → List Task := fun l => l.filter (fun u => u.id ≠ t.id)
  let st1 :=
    match t.state with
    | .queued => { st with queued := rm st.queued }
    | .active => { st with active := rm st.active }
    | .cancelled => { st with cancelled := rm st.cancelled }
    | .failed => { st with failed := rm st.failed }
    | .succeeded => { st with succeeded := rm st.succeeded }
  { st1 with evictLog := st1.evictLog ++ [{ t with listeners := 0 }] }

/-- `_garbageCollectCompletedTasks`: concatenate the SUCCEEDED, FAILED and
CANCELLED buckets, stable-sort ascending by `(completedAt || Infinity)`,
and evict the first `max(0, length - maxCompletedTaskMemory)` tasks. -/
def garbageCollectCompletedTasks (maxMem : Nat) (st : QueueSt) : QueueSt :=
  let completedTasks := st.succeeded ++ st.failed ++ st.cancelled
  let sorted := stableSortByKey gcKey completedTasks
  let numTasksToGc := completedTasks.length - maxMem
  let taskRefsToGc := sorted.take numTasksToGc
  taskRefsToGc.foldl evictTask st

/-- `_processTaskCancellation` (the `"abort"` listener registered in
`enqueue`): only a QUEUED task is transitioned; the task becomes
CANCELLED with `error = TaskFailureError(taskRef, signal.reason)` and
`completedAt = dateNow()`, is moved from the QUEUED to the CANCELLED
bucket, GC runs, and `completed` resolves.  For any other state the
handler returns without touching the queue. -/
def processTaskCancellation (opts : QueueOptions) (now : Nat) (st : QueueSt)
    (id : Nat) : QueueSt :=
  match findTask st id with
  | none => st
  | some t =>
    if t.state ≠ .queued then st
    else
      let t1 : Task :=
        { t with state := .cancelled,
                 error := some (t.abortReason.getD .undef),
                 completedAt := some now, completedResolved := true }
      let st1 :=
        { st with queued := st.queued.filter (fun u => u.id ≠ id),
                  cancelled := st.cancelled ++ [t1],
                  completionLog := st.completionLog ++ [id] }
      garbageCollectCompletedTasks opts.maxCompletedTaskMemory st1

/-- `_processTaskSuccess`: only an ACTIVE task is transitioned; it becomes
SUCCEEDED with `output = result` and `completedAt = dateNow()`, moves to
the SUCCEEDED bucket, GC runs, and `completed` resolves. -/
def processTaskSuccess (opts : QueueOptions) (now : Nat) (st : QueueSt)
    (id : Nat) (result : Nat) : QueueSt :=
  match findTask st id with
  | none => st
  | some t =>
    if t.state ≠ .active then st
    else
      let t1 : Task :=
        { t with state := .succeeded, output := some result,
                 completedAt := some now, completedResolved := true }
      let st1 :=
        { st with active := st.active.filter (fun u => u.id ≠ id),
                  succeeded := st.succeeded ++ [t1],
                  completionLog := st.completionLog ++ [id] }
      garbageCollectCompletedTasks opts.maxCompletedTaskMemory st1

/-- `_processTaskFailure`: a rejection whose reason is itself a
`TaskFailureError` is ignored entirely (early return before any guard or
mutation); otherwise only an ACTIVE task is transitioned: it becomes
FAILED with `error = TaskFailureError(taskRef, originalError)` and
`completedAt = dateNow()`, moves to the FAILED bucket, GC runs, the
queue-level `"error"` event is emitted, and `completed` resolves. -/
def processTaskFailure (opts : QueueOptions) (now : Nat) (st : QueueSt)
    (id : Nat) (originalError : JsVal) : QueueSt :=
  if originalError = .taskFailureError then st
  else
    match findTask st id with
    | none => st
    | some t =>
      if t.state ≠ .active then st
      else
        let t1 : Task :=
          { t with state := .failed, error := some originalError,
                   completedAt := some now, completedResolved := true }
        let st1 :=
          { st with active := st.active.filter (fun u => u.id ≠ id),
                    failed := st.failed ++ [t1],
                    completionLog := st.completionLog ++ [id] }
        let st2 := garbageCollectCompletedTasks opts.maxCompletedTaskMemory st1
        { st2 with errorEvents := st2.errorEvents + 1 }

/-- `_startNextIfPossible` composed with `_processNext` and the
synchronous prefix of `_process`: while RUNNING, with spare capacity
(`|ACTIVE| < maxConcurrentTasks`) and a nonempty QUEUED list, shift the
oldest QUEUED task, set its state to ACTIVE and push it onto the ACTIVE
bucket.  (`_process` runs synchronously up to its first `await`, so the
capacity check and the push are atomic.) -/
def startNextIfPossible (opts : QueueOptions) (st : QueueSt) : QueueSt :=
  if st.qstate ≠ .running then st
  else if opts.maxConcurrentTasks ≤ st.active.length then st
  else
    match st.queued with
    | [] => st
    | t :: rest =>
      { st with queued := rest,
                active := st.active ++ [{ t with state := .active }] }

/-- `enqueue`: throws (leaving the state untouched) while
DRAINING/DRAINED; otherwise creates a fresh task ref (unique id, QUEUED,
`queuedAt = dateNow()`), pushes it onto the QUEUED bucket and invokes the
scheduler. -/
def enqueueTask (opts : QueueOptions) (now : Nat) (st : QueueSt) : QueueSt :=
  if st.qstate = .draining ∨ st.qstate = .drained then st
  else
    let t : Task :=
      { id := st.nextId, state := .queued, queuedAt := now,
        completedAt := none, output := none, error := none,
        abortReason := none, raceSettled := false,
        completedResolved := false, listeners := 0 }
    startNextIfPossible opts
      { st with queued := st.queued ++ [t], nextId := st.nextId + 1 }

/-- `start()`: no-op on RUNNING, throws (state untouched) unless PAUSED,
else transitions to RUNNING and invokes the scheduler. -/
def startQueue (opts : QueueOptions) (st : QueueSt) : QueueSt :=
  if st.qstate = .running then st
  else if st.qstate ≠ .paused then st
  else startNextIfPossible opts { st with qstate := .running }

/-- `pause()`: no-op on PAUSED, throws (state untouched) unless RUNNING,
else transitions to PAUSED. -/
def pauseQueue (st : QueueSt) : QueueSt :=
  if st.qstate = .paused then st
  else if st.qstate ≠ .running then st
  else { st with qstate := .paused }

/-- `taskRef.abort(reason)` = `AbortController.abort`: a no-op if the
signal already aborted, else it records the reason and fires the abort
listeners — here the `_processTaskCancellation` listener registered in
`enqueue`.  (For an ACTIVE task the `withTimeout` abort listener also
rejects the race; that rejection reaches `_processTaskFailure` as a later
microtask, modelled by a separate `settleFailure` event.) -/
def abortTask (opts : QueueOptions) (now : Nat) (st : QueueSt) (id : Nat)
    (reason : JsVal) : QueueSt :=
  match findTask st id with
  | none => st
  | some t =>
    if t.abortReason.isSome then st
    else
      let st1 := updTask (fun u => { u with abortReason := some reason }) id st
      processTaskCancellation opts now st1 id

/-- The synchronous part of `drain()`: set the state to DRAINING
(unconditionally — there is no state guard in the source), then abort
every task in the QUEUED bucket and then every task in the ACTIVE bucket
with the `Task queue drained` error.  Each `for (const taskRef of ...)`
loop iterates the array snapshot taken at loop entry, while the abort
handlers reassign the live bucket. -/
def drainBegin (opts : QueueOptions) (now : Nat) (st : QueueSt) : QueueSt :=
  let st1 := { st with qstate := .draining }
  let queuedIds := st1.queued.map (fun t => t.id)
  let st2 := queuedIds.foldl (fun s id => abortTask opts now s id (.jsError 0)) st1
  let activeIds := st2.active.map (fun t => t.id)
  activeIds.foldl (fun s id => abortTask opts now s id (.jsError 0)) st2

/-- The final part of `drain()`: once `waitForCompletion()` has resolved
(QUEUED and ACTIVE both empty), set the state to DRAINED.  While tasks
remain the awaited promise has not settled, so the assignment cannot run
yet. -/
def drainEnd (st : QueueSt) : QueueSt :=
  if st.queued = [] ∧ st.active = [] then { st with qstate := .drained }
  else st

/-- The asynchronous callbacks and public entry points of the task queue,
as events.  `settleSuccess` / `settleFailure` are the settlement of a
task's `withTimeout(this._options.onTask(taskRef), ...)` promise:
`settleFailure id .abortError` is the rejection produced by the abort
listener inside `withTimeout` when the task's signal fires while active,
`settleFailure id .timeoutError` is the timer firing, and other reasons
are rejections of `onTask` itself.  `attachListener` is
`taskRef.on("progress", ...)`. -/
inductive QEvent where
  | enqueue : Nat → QEvent
  | start : QEvent
  | pause : QEvent
  | sigAbort : Nat → JsVal → Nat → QEvent
  | settleSuccess : Nat → Nat → Nat → QEvent
  | settleFailure : Nat → JsVal → Nat → QEvent
  | drainStep : Nat → QEvent
  | drainFinish : QEvent
  | attachListener : Nat → QEvent
deriving DecidableEq, Repr

/-- Marks the task's `withTimeout` race promise as settled (its
`.then`/`.catch` continuation can fire at most once). -/
def markRaceSettled (id : Nat) (st : QueueSt) : QueueSt :=
  updTask (fun u => { u with raceSettled := true }) id st

/-- One event step of the task queue.  The settle events run the matching
outcome handler and then `_startNextIfPossible()` (the tail of
`_process`); a promise that has already settled fires nothing. -/
def stepQ (opts : QueueOptions) (st : QueueSt) : QEvent → QueueSt
  | .enqueue now => enqueueTask opts now st
  | .start => startQueue opts st
  | .pause => pauseQueue st
  | .sigAbort id reason now => abortTask opts now st id reason
  | .settleSuccess id result now =>
    match findTask st id with
    | none => st
    | some t =>
      if t.raceSettled then st
      else
        startNextIfPossible opts
          (processTaskSuccess opts now (markRaceSettled id st) id result)
  | .settleFailure id reason now =>
    match findTask st id with
    | none => st
    | some t =>
      if t.raceSettled then st
      else
        startNextIfPossible opts
          (processTaskFailure opts now (markRaceSettled id st) id reason)
  | .drainStep now => drainBegin opts now st
  | .drainFinish => drainEnd st
  | .attachListener id =>
    updTask (fun u => { u with listeners := u.listeners + 1 }) id st

/-- Runs a sequence of events from a state. -/
def runQ (opts : QueueOptions) : List QEvent → QueueSt → QueueSt
  | [], st => st
  | e :: es, st => runQ opts es (stepQ opts st e)

end TaskQueueModel

namespace PoolModel

/-- The numeric configuration of `ConcurrentResourcePool` that drives the
embedded fragment.  Timestamps are rationals (milliseconds).  Options
whose default is `Infinity` and which are only ever compared against
(`retireResourceAfterUses`, `retireResourceAfterSeconds`,
`destroyRetiredResourceForciblyAfterSeconds`, `createTimeoutMs`) are
`WithTop` values, `⊤` playing the role of `Infinity`; the remaining
counts are finite naturals. -/
structure PoolOptions where
  maxConcurrentLeasesPerResource : Nat
  minResources : Nat
  maxResources : Nat
  retireResourceAfterUses : WithTop Nat
  retireResourceAfterSeconds : WithTop ℚ
  destroyRetiredResourceForciblyAfterSeconds : WithTop ℚ
  createTimeoutMs : WithTop ℚ
deriving DecidableEq, Repr

/-- A `ResourceRecord`.  `activeLeases` and `pastLeases` hold lease ids in
array order; `destroyStarted` records that `destroyRef` has been
assigned. -/
structure PoolRecord where
  id : Nat
  createdAt : ℚ
  retiredAt : Option ℚ
  destroyStarted : Bool
  activeLeases : List Nat
  pastLeases : List Nat
deriving DecidableEq, Repr

/-- A `ResourceInternalLease`; `recordId` is the `resourceRecord`
back-reference.  Lease objects are immutable after creation. -/
structure PoolLease where
  id : Nat
  leasedAt : ℚ
  recordId : Nat
deriving DecidableEq, Repr

/-- The state of a `ConcurrentResourcePool`.  Because lease objects hold a
live back-reference to their record even after the record leaves
`_resourceRecords`, records are stored in an aliasing store `allRecords`
(every record object ever created) while `poolIds` is the id sequence of
the current `_resourceRecords` array.  `leaseById` is the key set of
`_leaseById`; `allLeases` is the store of lease objects; `acquireQueue`
holds parked acquire waiters (FIFO) and `wokenLog` is a ghost log of the
waiters resolved by `_updateAvailableResources`, in wake order. -/
structure PoolState where
  isDrained : Bool
  nextId : Nat
  allRecords : List PoolRecord
  poolIds : List Nat
  allLeases : List PoolLease
  leaseById : List Nat
  acquireQueue : List Nat
  wokenLog : List Nat
deriving DecidableEq, Repr

/-- Dereferences a record id in the aliasing store. -/
def findRecord (st : PoolState) (rid : Nat) : Option PoolRecord :=
  st.allRecords.find? (fun r => r.id = rid)

/-- The current contents of `this._resourceRecords`, as record objects. -/
def poolRecords (st : PoolState) : List PoolRecord :=
  st.poolIds.filterMap (findRecord st)

/-- Mutates the record object with the given id in place. -/
def updRecord (f : PoolRecord → PoolRecord) (rid : Nat) (st : PoolState) :
    PoolState :=
  { st with allRecords :=
      st.allRecords.map (fun r => if r.id = rid then f r else r) }

/-- Dereferences a lease id in the lease store. -/
def findLease (st : PoolState) (lid : Nat) : Option PoolLease :=
  st.allLeases.find? (fun l => l.id = lid)

/-- JavaScript truthiness of the `retiredAt` field: `undefined` and `0`
are both falsy, any other clock value is truthy.  Every `retiredAt`
guard in the source (`if (record.retiredAt) ...` in
`_getAvailableCapacity` and `_markResourcesForRetirement`,
`if (!record.retiredAt) continue` in `_destroyRetiredResources`) tests
the raw field, so a record retired at clock value `0` behaves in all of
them as if it were not retired. -/
def retiredAtTruthy (r : PoolRecord) : Bool :=
  match r.retiredAt with
  | none => false
  | some q => decide (q ≠ 0)

/-- The retirement test of `_markResourcesForRetirement`: a record whose
`retiredAt` is falsy is retired once
`activeLeases.length + pastLeases.length >= retireResourceAfterUses` or
`(now - createdAt) / 1000 >= retireResourceAfterSeconds` — note the
division by 1000 converting the millisecond clock to seconds, and that a
record retired at clock `0` passes the `if (record.retiredAt) return
false` guard and is examined (and can be re-retired) again. -/
def shouldRetire (opts : PoolOptions) (now : ℚ) (r : PoolRecord) : Bool :=
  if retiredAtTruthy r then false
  else
    let numTotalLeases := r.activeLeases.length + r.pastLeases.length
    if opts.retireResourceAfterUses ≤ (numTotalLeases : WithTop Nat) then true
    else
      let lifetimeInSeconds := (now - r.createdAt) / 1000
      decide (opts.retireResourceAfterSeconds ≤ (lifetimeInSeconds : WithTop ℚ))

/-- `_markResourceAsRetired`: sets `retiredAt = wallTime.now()`. -/
def markResourceAsRetired (now : ℚ) (st : PoolState) (rid : Nat) : PoolState :=
  updRecord (fun r => { r with retiredAt := some now }) rid st

/-- `_markResourcesForRetirement`: filter the current records by the
retirement test, then retire each. -/
def markResourcesForRetirement (opts : PoolOptions) (now : ℚ)
    (st : PoolState) : PoolState :=
  let resourcesToRetire := (poolRecords st).filter (shouldRetire opts now)
  resourcesToRetire.foldl (fun s r => markResourceAsRetired now s r.id) st

/-- The value the source names `secondsSinceRetirement` in
`_destroyRetiredResources`: it is computed as
`wallTime.now() - record.retiredAt` with NO division by 1000, so it is in
fact a number of milliseconds. -/
def secondsSinceRetirement (now : ℚ) (r : PoolRecord) : ℚ :=
  now - r.retiredAt.getD 0

/-- The forcible-destruction test of `_destroyRetiredResources`:
`secondsSinceRetirement >= destroyRetiredResourceForciblyAfterSeconds`,
comparing the millisecond quantity above against the seconds-denominated
option. -/
def shouldForciblyClose (opts : PoolOptions) (now : ℚ) (r : PoolRecord) :
    Bool :=
  decide (opts.destroyRetiredResourceForciblyAfterSeconds ≤
    ((secondsSinceRetirement now r : ℚ) : WithTop ℚ))

/-- The bookkeeping part of `_createResource`: allocate a fresh id, record
`createdAt = wallTime.now()`, and push the new record onto
`_resourceRecords`.  (The `withTimeout` wiring around `create()` is
modelled separately by `createResourceTimeoutOptions`.) -/
def createResource (now : ℚ) (st : PoolState) : PoolState :=
  let id := st.nextId
  let r : PoolRecord :=
    { id := id, createdAt := now, retiredAt := none, destroyStarted := false,
      activeLeases := [], pastLeases := [] }
  { st with nextId := id + 1, allRecords := st.allRecords ++ [r],
            poolIds := st.poolIds ++ [id] }

/-- `_createMinimumResources`: a no-op once drained; otherwise creates
`minResources - |records|` new records (the count is computed once before
the loop). -/
def createMinimumResources (opts : PoolOptions) (now : ℚ) (st : PoolState) :
    PoolState :=
  if st.isDrained then st
  else
    let numResourcesToCreate := opts.minResources - st.poolIds.length
    (List.range numResourcesToCreate).foldl (fun s _ => createResource now s) st

/-- `_getAvailableCapacity`: for each current record whose `retiredAt` is
falsy (`if (record.retiredAt) continue` — so a record retired at clock
`0` is counted) add `maxConcurrentLeasesPerResource -
activeLeases.length` (with no clamping at zero), then add
`(maxResources - |records|) * maxConcurrentLeasesPerResource`. -/
def getAvailableCapacity (opts : PoolOptions) (st : PoolState) : Int :=
  let capacity := (poolRecords st).foldl
    (fun capacity r =>
      if retiredAtTruthy r then capacity
      else capacity + ((opts.maxConcurrentLeasesPerResource : Int) -
        (r.activeLeases.length : Int)))
    0
  let numActiveResources := st.poolIds.length
  let numAdditionalResources := (opts.maxResources : Int) - (numActiveResources : Int)
  let numAdditionalLeases :=
    numAdditionalResources * (opts.maxConcurrentLeasesPerResource : Int)
  capacity + numAdditionalLeases

/-- The waiter-waking loop of `_updateAvailableResources`:
`for (let i = 0; i < maxAcquireRequestsToDequeue && queue.length; i++)`
shifting and resolving the front waiter each iteration.  Returns the
resolved waiters (in wake order) and the remaining queue. -/
def dequeueLoop : Int → List Nat → List Nat × List Nat
  | _, [] => ([], [])
  | capacity, w :: ws =>
    if capacity ≤ 0 then ([], w :: ws)
    else
      let p := dequeueLoop (capacity - 1) ws
      (w :: p.1, p.2)

/-- The bookkeeping part of `_markResourceAsReleased`: filter the lease
out of its record's `activeLeases`, push it onto `pastLeases` unless
already present (`if (!record.pastLeases.includes(lease))`), and delete it
from `_leaseById`. -/
def markResourceAsReleasedCore (st : PoolState) (l : PoolLease) : PoolState :=
  let st1 := updRecord
    (fun r =>
      { r with
        activeLeases := r.activeLeases.filter (fun lid => lid ≠ l.id),
        pastLeases :=
          if l.id ∈ r.pastLeases then r.pastLeases
          else r.pastLeases ++ [l.id] })
    l.recordId st
  { st1 with leaseById := st1.leaseById.filter (fun lid => lid ≠ l.id) }

/-!
`_updateAvailableResources`, `_destroyRetiredResources`,
`_destroyResource` and `_markResourceAsReleased` are mutually recursive in
the source: destroying a record releases its active leases, and every
release re-runs the revalidate step.  Each recursion strictly decreases
the total number of active leases, so the recursion terminates; the
embedding makes that explicit with a fuel parameter (the functions below
are the source functions for every sufficiently large fuel, and all
theorems are proved for every fuel).  The `for (const x of xs)` loops
iterate the array object captured at loop entry even when the field is
reassigned mid-loop, which the `...Go` helpers model by walking an
explicit snapshot list while the body reads the live state.
-/

mutual

/-- `_updateAvailableResources`: retire due records, destroy due retired
records, top up to `minResources`, then wake as many queued acquire
waiters as there is available capacity (oldest first). -/
def updateAvailableResources : Nat → PoolOptions → ℚ → PoolState → PoolState
  | 0, _, _, st => st
  | fuel + 1, opts, now, st =>
    let st1 := markResourcesForRetirement opts now st
    let st2 := destroyRetiredResourcesGo fuel opts now st1.poolIds st1
    let st3 := createMinimumResources opts now st2
    let maxAcquireRequestsToDequeue := getAvailableCapacity opts st3
    let p := dequeueLoop maxAcquireRequestsToDequeue st3.acquireQueue
    { st3 with acquireQueue := p.2, wokenLog := st3.wokenLog ++ p.1 }
termination_by fuel _ _ _ => (fuel, 0, 0)

/-- `_markResourceAsReleased`: the lease bookkeeping followed by
`_updateAvailableResources()`. -/
def markResourceAsReleased :
    Nat → PoolOptions → ℚ → PoolState → PoolLease → PoolState
  | fuel, opts, now, st, l =>
    updateAvailableResources fuel opts now (markResourceAsReleasedCore st l)
termination_by fuel _ _ _ _ => (fuel, 1, 0)

/-- The `for (const lease of resourceRecord.activeLeases)` loop of
`_destroyResource`, releasing each lease of the snapshot in order. -/
def releaseLeasesGo :
    Nat → PoolOptions → ℚ → List Nat → PoolState → PoolState
  | _, _, _, [], st => st
  | fuel, opts, now, lid :: rest, st =>
    let st1 :=
      match findLease st lid with
      | none => st
      | some l => markResourceAsReleased fuel opts now st l
    releaseLeasesGo fuel opts now rest st1
termination_by fuel _ _ l _ => (fuel, 2, l.length)

/-- `_destroyResource`: remove the record from `_resourceRecords`, release
every lease in the `activeLeases` snapshot, then assign `destroyRef`. -/
def destroyResource : Nat → PoolOptions → ℚ → PoolState → Nat → PoolState
  | fuel, opts, now, st, rid =>
    let st1 := { st with poolIds := st.poolIds.filter (fun i => i ≠ rid) }
    let leases :=
      match findRecord st1 rid with
      | none => []
      | some r => r.activeLeases
    let st2 := releaseLeasesGo fuel opts now leases st1
    updRecord (fun r => { r with destroyStarted := true }) rid st2
termination_by fuel _ _ _ _ => (fuel, 3, 0)

/-- The `for (const record of this._resourceRecords)` loop of
`_destroyRetiredResources`: a record whose `retiredAt` is falsy is
skipped (`if (!record.retiredAt) continue` — so a record retired at clock
`0` is never destroyed here); otherwise, if its `activeLeases` is empty
or the (mis-unit) forcible-close test fires, it begins destruction. -/
def destroyRetiredResourcesGo :
    Nat → PoolOptions → ℚ → List Nat → PoolState → PoolState
  | _, _, _, [], st => st
  | fuel, opts, now, rid :: rest, st =>
    let st1 :=
      match findRecord st rid with
      | none => st
      | some r =>
        if retiredAtTruthy r = false then st
        else if r.activeLeases.length = 0 ∨ shouldForciblyClose opts now r then
          destroyResource fuel opts now st rid
        else st
    destroyRetiredResourcesGo fuel opts now rest st1
termination_by fuel _ _ l _ => (fuel, 4, l.length)

end

/-- The fragment of `release()` relevant to lease bookkeeping: look the
lease up by id in `_leaseById`; if absent, neither the body nor the
`catch` handler touches any record (`if (lease) ...` guards both); if
present, `_markResourceAsReleased(lease)` runs, and — when the awaited
tail of the body rejects after the release (destroyRef error or timeout) —
the `catch` handler runs `_markResourceAsReleased(lease)` a second time. -/
def releasePool (fuel : Nat) (opts : PoolOptions) (now : ℚ) (st : PoolState)
    (externalId : Nat) (errorAfterRelease : Bool) : PoolState :=
  match (if externalId ∈ st.leaseById then findLease st externalId else none) with
  | none => st
  | some lease =>
    let st1 := markResourceAsReleased fuel opts now st lease
    if errorAfterRelease then markResourceAsReleased fuel opts now st1 lease
    else st1

end PoolModel

/-! ## The `withTimeout` options object (`promises.ts`) -/

/-- `PromiseTimeoutOptions` from `promises.ts`, together with one extra
key: `concurrent-pool.ts` line 208 writes its create-cleanup hook under
the property name `cleanupOnResolve`, which is not one of the option
names `withTimeout` reads; the embedding keeps that stray key as the
`cleanupOnResolve` field so that the object built by `_createResource`
can be stated faithfully.  Hooks are state transformers over `σ`
parameterised by the settled value `α` (for the pool they additionally
take the fuel and clock sample of the step in which they run). -/
structure PromiseTimeoutOptionsModel (α σ : Type) where
  timeoutMs : WithTop ℚ
  timeoutErrorMessage : Option String := none
  abortErrorMessage : Option String := none
  hasAbortController : Bool := false
  cleanupOnLateResolve : Option (α → σ → σ) := none
  cleanupOnLateReject : Option (JsVal → σ → σ) := none
  cleanupOnResolve : Option (α → σ → σ) := none

/-- The source-settled continuation of `withTimeout` (`promises.ts` lines
83-89): when the source promise resolves after the race was already lost
(`hasCancelled` is set), `options.cleanupOnLateResolve` — and only that
key — is invoked with the late value. -/
def withTimeoutOnSourceResolve {α σ : Type}
    (options : PromiseTimeoutOptionsModel α σ) (hasCancelled : Bool)
    (value : α) (st : σ) : σ :=
  if hasCancelled then
    match options.cleanupOnLateResolve with
    | some cleanup => cleanup value st
    | none => st
  else st

namespace PoolModel

/-- The options object built by `_createResource` for
`withTimeout(this._options.create(), ...)`: a timeout, a timeout message,
and the destroy-on-late-resolve hook — written under the key
`cleanupOnResolve`.  No `cleanupOnLateResolve` key is written. -/
def createResourceTimeoutOptions (fuel : Nat) (opts : PoolOptions) (now : ℚ)
    (rid : Nat) : PromiseTimeoutOptionsModel Nat PoolState :=
  { timeoutMs := opts.createTimeoutMs,
    timeoutErrorMessage := some "Failed to create resource in specified timeout",
    cleanupOnResolve :=
      some (fun _resource st => destroyResource fuel opts now st rid) }

/-- Modelled from the spec (claim C4 wording): the forcible-destruction
threshold applied with the same time-unit conversion as the retirement
threshold, i.e. the time since retirement converted from the millisecond
clock to seconds before comparing against
`destroyRetiredResourceForciblyAfterSeconds`. -/
def specShouldForciblyClose (opts : PoolOptions) (now : ℚ) (r : PoolRecord) :
    Bool :=
  decide (opts.destroyRetiredResourceForciblyAfterSeconds ≤
    (((now - r.retiredAt.getD 0) / 1000 : ℚ) : WithTop ℚ))

/-- Modelled from the spec (claim C5 wording): capacity is the sum over
non-retired records of `max(0, maxConcurrentLeasesPerResource -
|activeLeases|)` plus `(maxResources - |records|) ×
maxConcurrentLeasesPerResource`. -/
def specAvailableCapacity (opts : PoolOptions) (st : PoolState) : Int :=
  ((poolRecords st).map (fun r =>
      if r.retiredAt.isSome then 0
      else max 0 ((opts.maxConcurrentLeasesPerResource : Int) -
        (r.activeLeases.length : Int)))).sum
  + ((opts.maxResources : Int) - (st.poolIds.length : Int)) *
      (opts.maxConcurrentLeasesPerResource : Int)

/-- The first three phases of `_updateAvailableResources` (retirement,
destruction of due retired records, minimum top-up), i.e. the state in
which the waking phase then measures capacity and wakes waiters. -/
def revalidatePhases (fuel : Nat) (opts : PoolOptions) (now : ℚ)
    (st : PoolState) : PoolState :=
  let st1 := markResourcesForRetirement opts now st
  createMinimumResources opts now
    (destroyRetiredResourcesGo fuel opts now st1.poolIds st1)

/-- Every record's `pastLeases` list is duplicate-free: no lease has been
appended to it twice. -/
def PastLeasesNodup (st : PoolState) : Prop :=
  ∀ r ∈ st.allRecords, r.pastLeases.Nodup

end PoolModel

namespace TaskQueueModel

/-- The contents of the three terminal buckets, in the concatenation
order `_garbageCollectCompletedTasks` uses. -/
def terminalTasks (st : QueueSt) : List Task :=
  st.succeeded ++ st.failed ++ st.cancelled

/-- The ids of all tasks currently held in the queue's buckets. -/
def allIds (st : QueueSt) : List Nat :=
  (allTasks st).map (fun t => t.id)

/-- Well-formedness of a queue state, maintained by every operation: task
ids are pairwise distinct (so JavaScript object identity coincides with
id equality), every id is below the allocator counter, and every task
sits in the bucket matching its `state` field. -/
def QueueWF (st : QueueSt) : Prop :=
  (allIds st).Nodup
  ∧ (∀ i ∈ allIds st, i < st.nextId)
  ∧ (∀ t ∈ st.queued, t.state = .queued)
  ∧ (∀ t ∈ st.active, t.state = .active)
  ∧ (∀ t ∈ st.cancelled, t.state = .cancelled)
  ∧ (∀ t ∈ st.failed, t.state = .failed)
  ∧ (∀ t ∈ st.succeeded, t.state = .succeeded)

/-- The task with the given id is parked in the ACTIVE bucket with state
ACTIVE, its race promise has settled, and its `completed` future has not
resolved: the configuration claim C9 asserts is permanent. -/
def taskStuckActive (st : QueueSt) (id : Nat) : Prop :=
  ∃ t, t ∈ st.active ∧ t.id = id ∧ t.state = .active
    ∧ t.raceSettled = true ∧ t.completedResolved = false

/-- Modelled from the spec (claim C7 wording): over the terminal tasks
listed in insertion (terminal-transition) order, retain the most recent
`maxCompletedTaskMemory` by `completedAt` with ties broken by that
insertion order — i.e. stable-sort ascending and keep the suffix. -/
def specGcRetainedIds (maxMem : Nat) (terminalInInsertionOrder : List Task) :
    List Nat :=
  ((stableSortByKey gcKey terminalInInsertionOrder).drop
    (terminalInInsertionOrder.length - maxMem)).map (fun t => t.id)

end TaskQueueModel

/-! ## Concrete fixtures used by the claim theorems -/

namespace Fixtures

open TaskQueueModel PoolModel

/-- A queue with one worker slot and default diagnostic memory. -/
def qOptsDefault : QueueOptions :=
  { maxConcurrentTasks := 1, maxCompletedTaskMemory := 100 }

/-- Claim C1/C2 run: start the queue, enqueue one task (which becomes
ACTIVE immediately), fire its abort signal at time 3, and let the
`withTimeout` race reject with the `AbortError` the abort listener
produced. -/
def activeAbortEvents : List QEvent :=
  [.start, .enqueue 0, .sigAbort 1 .abortError 3, .settleFailure 1 .abortError 3]

/-- Claim C2 run: the same, followed by the handler's own promise
resolving successfully afterwards. -/
def activeAbortLateResolveEvents : List QEvent :=
  activeAbortEvents ++ [.settleSuccess 1 42 9]

/-- A queue keeping a single terminal task in memory. -/
def qOptsMemOne : QueueOptions :=
  { maxConcurrentTasks := 1, maxCompletedTaskMemory := 1 }

/-- Claim C7 run: task 1 is cancelled while queued at time 5; task 2 then
runs and succeeds, also at time 5 (the injected clock repeats itself), so
the two terminal tasks tie on `completedAt` with task 1 the earlier
terminal transition. -/
def gcTieEvents : List QEvent :=
  [.enqueue 1, .enqueue 2, .sigAbort 1 (.jsError 3) 5, .start,
   .settleSuccess 2 7 5]

/-- A queue state that has fully drained: DRAINED with empty QUEUED and
ACTIVE buckets. -/
def drainedQueue : QueueSt :=
  { initQueue with qstate := .drained }

/-- Pool options for claim C4: forcible destruction of retired resources
after 10 seconds, everything else permissive. -/
def poolOptsForcible : PoolOptions :=
  { maxConcurrentLeasesPerResource := 2, minResources := 0,
    maxResources := 10, retireResourceAfterUses := ⊤,
    retireResourceAfterSeconds := ⊤,
    destroyRetiredResourceForciblyAfterSeconds := ((10 : ℚ) : WithTop ℚ),
    createTimeoutMs := ⊤ }

/-- Pool options for the retirement-path contrast in claim C4: retire by
age after 10 seconds. -/
def poolOptsRetireTen : PoolOptions :=
  { poolOptsForcible with
    retireResourceAfterSeconds := ((10 : ℚ) : WithTop ℚ),
    destroyRetiredResourceForciblyAfterSeconds := ⊤ }

/-- A record retired at clock value 1000 (milliseconds, truthy) holding
one active lease. -/
def retiredRecord : PoolRecord :=
  { id := 1, createdAt := 0, retiredAt := some 1000, destroyStarted := false,
    activeLeases := [2], pastLeases := [] }

/-- The same record before retirement, for the retirement-path
contrast. -/
def freshRecord : PoolRecord :=
  { retiredRecord with retiredAt := none }

/-- A pool holding `retiredRecord` and its one active lease. -/
def poolWithRetired : PoolState :=
  { isDrained := false, nextId := 3, allRecords := [retiredRecord],
    poolIds := [1],
    allLeases := [{ id := 2, leasedAt := 0, recordId := 1 }],
    leaseById := [2], acquireQueue := [], wokenLog := [] }

/-- Pool options for claim C5's counterexample:
`maxConcurrentLeasesPerResource = 0` with room for one record.  An
`acquire()` against this configuration finds no record with spare
capacity, creates a record and leases it, yielding a record whose
`activeLeases` exceeds the per-resource cap. -/
def poolOptsZeroLease : PoolOptions :=
  { maxConcurrentLeasesPerResource := 0, minResources := 0,
    maxResources := 1, retireResourceAfterUses := ⊤,
    retireResourceAfterSeconds := ⊤,
    destroyRetiredResourceForciblyAfterSeconds := ⊤, createTimeoutMs := ⊤ }

/-- The pool state produced by that acquire: one non-retired record with
one active lease under a cap of zero. -/
def poolOverLeased : PoolState :=
  { isDrained := false, nextId := 3,
    allRecords :=
      [{ id := 1, createdAt := 0, retiredAt := none, destroyStarted := false,
         activeLeases := [2], pastLeases := [] }],
    poolIds := [1],
    allLeases := [{ id := 2, leasedAt := 0, recordId := 1 }],
    leaseById := [2], acquireQueue := [], wokenLog := [] }

/-- Pool options for claim C3's failing input: a 5000 ms create
timeout. -/
def poolOptsCreateTimeout : PoolOptions :=
  { maxConcurrentLeasesPerResource := 1, minResources := 0,
    maxResources := 10, retireResourceAfterUses := ⊤,
    retireResourceAfterSeconds := ⊤,
    destroyRetiredResourceForciblyAfterSeconds := ⊤,
    createTimeoutMs := ((5000 : ℚ) : WithTop ℚ) }

/-- The pool at the moment the create of record 1 times out: the record
is still tracked, its `create()` still pending, no leases on it. -/
def poolPendingCreate : PoolState :=
  { isDrained := false, nextId := 2,
    allRecords :=
      [{ id := 1, createdAt := 0, retiredAt := none, destroyStarted := false,
         activeLeases := [], pastLeases := [] }],
    poolIds := [1], allLeases := [], leaseById := [], acquireQueue := [],
    wokenLog := [] }

/-- Permissive pool options used for claim C10's witness. -/
def poolOptsPlain : PoolOptions :=
  { maxConcurrentLeasesPerResource := 1, minResources := 0,
    maxResources := 10, retireResourceAfterUses := ⊤,
    retireResourceAfterSeconds := ⊤,
    destroyRetiredResourceForciblyAfterSeconds := ⊤, createTimeoutMs := ⊤ }

/-- A pool with one record holding one active lease, for claim C10's
witness. -/
def poolOneLease : PoolState :=
  { isDrained := false, nextId := 3,
    allRecords :=
      [{ id := 1, createdAt := 0, retiredAt := none, destroyStarted := false,
         activeLeases := [2], pastLeases := [] }],
    poolIds := [1],
    allLeases := [{ id := 2, leasedAt := 0, recordId := 1 }],
    leaseById := [2], acquireQueue := [], wokenLog := [] }

/-- The lease object of `poolOneLease`. -/
def leaseTwo : PoolLease := { id := 2, leasedAt := 0, recordId := 1 }

/-- Claim C9 witness run: a started queue with one active task. -/
def oneActiveTaskEvents : List QEvent := [.start, .enqueue 0]

/-- A queue holding two terminal tasks with distinct completion times,
for claim C7's witness. -/
def gcWitnessState : QueueSt :=
  { initQueue with
    nextId := 3,
    succeeded :=
      [{ id := 1, state := .succeeded, queuedAt := 0, completedAt := some 3,
         output := some 4, error := none, abortReason := none,
         raceSettled := true, completedResolved := true, listeners := 2 }],
    cancelled :=
      [{ id := 2, state := .cancelled, queuedAt := 0, completedAt := some 7,
         output := none, error := some .abortError,
         abortReason := some .abortError, raceSettled := false,
         completedResolved := true, listeners := 1 }] }

end Fixtures

namespace Claims

open TaskQueueModel PoolModel Fixtures

/-- C1: the claim states that when the cancellation signal of an ACTIVE
task fires, the failure handler detects cancellation and routes the task
to CANCELLED without emitting `"error"`.  Evaluating the embedded queue
on the failing input refutes this: `_processTaskCancellation` ignores any
non-QUEUED task, so the `AbortError` rejection reaches
`_processTaskFailure`, which moves the task to FAILED and emits one
queue-level `"error"` event; the CANCELLED bucket stays empty. -/
theorem claim1_active_cancellation_routes_to_failed_and_emits_error :
    (runQ qOptsDefault (activeAbortEvents.take 2) initQueue).active.map Task.id = [1]
    ∧ (runQ qOptsDefault activeAbortEvents initQueue).cancelled = []
    ∧ (runQ qOptsDefault activeAbortEvents initQueue).failed.map Task.id = [1]
    ∧ (runQ qOptsDefault activeAbortEvents initQueue).failed.map Task.state
        = [TaskState.failed]
    ∧ (runQ qOptsDefault activeAbortEvents initQueue).errorEvents = 1 := by
  decide

/-- C2: the claim states that an ACTIVE task whose signal aborted and
whose handler later resolves ends CANCELLED with `output` unset.
Evaluating the embedded queue on the failing input: the late result is
indeed discarded (`output` stays unset, nothing reaches SUCCEEDED), but
the task sits in FAILED, not CANCELLED, because the abort was routed
through `_processTaskFailure`. -/
theorem claim2_late_resolve_discarded_but_state_is_failed :
    (runQ qOptsDefault activeAbortLateResolveEvents initQueue).failed.map Task.output
        = [none]
    ∧ (runQ qOptsDefault activeAbortLateResolveEvents initQueue).failed.map Task.state
        = [TaskState.failed]
    ∧ (runQ qOptsDefault activeAbortLateResolveEvents initQueue).succeeded = []
    ∧ (runQ qOptsDefault activeAbortLateResolveEvents initQueue).cancelled = [] := by
  decide

/-- C3: the claim states that `_createResource` passes a
`cleanupOnLateResolve` hook to `withTimeout`, so a create that loses the
timeout race but later resolves has its resource destroyed.  In the
source the hook is written under the property name `cleanupOnResolve`,
which `withTimeout` never reads: the options object built by
`_createResource` has no `cleanupOnLateResolve`, the late-resolve
continuation of `withTimeout` leaves the pool untouched for every state,
and only a direct invocation of the stranded `cleanupOnResolve` closure
would begin the destruction the claim describes. -/
theorem claim3_late_create_cleanup_hook_is_never_invoked :
    (∀ (fuel : Nat) (opts : PoolOptions) (now : ℚ) (rid v : Nat) (st : PoolState),
      withTimeoutOnSourceResolve (createResourceTimeoutOptions fuel opts now rid)
        true v st = st)
    ∧ (∀ (fuel : Nat) (opts : PoolOptions) (now : ℚ) (rid : Nat),
        (createResourceTimeoutOptions fuel opts now rid).cleanupOnLateResolve = none)
    ∧ (∀ (fuel : Nat) (opts : PoolOptions) (now : ℚ) (rid : Nat),
        ((createResourceTimeoutOptions fuel opts now rid).cleanupOnResolve).isSome = true)
    ∧ ((((createResourceTimeoutOptions 2 poolOptsCreateTimeout 6000 1).cleanupOnResolve).getD
          (fun _ s => s)) 7 poolPendingCreate).poolIds = []
    ∧ (findRecord ((((createResourceTimeoutOptions 2 poolOptsCreateTimeout 6000 1).cleanupOnResolve).getD
          (fun _ s => s)) 7 poolPendingCreate) 1).map PoolRecord.destroyStarted
        = some true := by
  refine ⟨fun _ _ _ _ _ _ => rfl, fun _ _ _ _ => rfl, fun _ _ _ _ => rfl, ?_, ?_⟩ <;>
    simp [createResourceTimeoutOptions, destroyResource, releaseLeasesGo,
      updRecord, findRecord, poolPendingCreate]

/-- C4: the claim states that the retirement threshold and the
forcible-destruction threshold use the same milliseconds-to-seconds
conversion.  The retirement path does divide the clock difference by
1000, but `_destroyRetiredResources` compares the raw millisecond
difference `now - retiredAt` against the seconds-denominated option: a
record retired at clock 1000 with an active lease is forcibly destroyed
at clock 6000 (5 s since retirement) under a 10-second threshold, where
the spec-side test (with the conversion applied) says destruction must
not begin; a not-yet-retired record of the same age is (correctly) not
retired at 6 s under a 10-second retirement threshold. -/
theorem claim4_forcible_destroy_compares_milliseconds_to_seconds :
    shouldForciblyClose poolOptsForcible 6000 retiredRecord = true
    ∧ specShouldForciblyClose poolOptsForcible 6000 retiredRecord = false
    ∧ shouldRetire poolOptsRetireTen 6000 freshRecord = false
    ∧ (updateAvailableResources 3 poolOptsForcible 6000 poolWithRetired).poolIds = []
    ∧ (findRecord (updateAvailableResources 3 poolOptsForcible 6000 poolWithRetired) 1).map
        PoolRecord.destroyStarted = some true := by
  refine ⟨?_, ?_, ?_, ?_, ?_⟩
  · exact decide_eq_true (WithTop.coe_le_coe.mpr
      (by norm_num : (10 : ℚ) ≤ 6000 - 1000))
  · simp [specShouldForciblyClose, poolOptsForcible, retiredRecord]
    rw [show ((10 : WithTop ℚ)) = ((10 : ℚ) : WithTop ℚ) by norm_cast]
    exact WithTop.coe_lt_coe.mpr (by norm_num)
  · simp [shouldRetire, retiredAtTruthy, poolOptsRetireTen, poolOptsForcible,
      freshRecord, retiredRecord, WithTop.coe_lt_top]
    rw [show ((10 : WithTop ℚ)) = ((10 : ℚ) : WithTop ℚ) by norm_cast]
    exact WithTop.coe_lt_coe.mpr (by norm_num)
  · simp [updateAvailableResources, destroyRetiredResourcesGo, destroyResource,
      releaseLeasesGo, markResourceAsReleased, markResourceAsReleasedCore,
      markResourcesForRetirement, createMinimumResources, createResource,
      getAvailableCapacity, dequeueLoop, poolRecords, findRecord, findLease,
      updRecord, shouldRetire, retiredAtTruthy, shouldForciblyClose,
      secondsSinceRetirement, markResourceAsRetired, poolOptsForcible,
      retiredRecord, poolWithRetired,
      show ((6000 : ℚ) - 1000 = 5000) from by norm_num,
      show ((10 : WithTop ℚ) ≤ 5000) from by
        exact_mod_cast (by norm_num : (10 : ℚ) ≤ 5000)]
  · simp [updateAvailableResources, destroyRetiredResourcesGo, destroyResource,
      releaseLeasesGo, markResourceAsReleased, markResourceAsReleasedCore,
      markResourcesForRetirement, createMinimumResources, createResource,
      getAvailableCapacity, dequeueLoop, poolRecords, findRecord, findLease,
      updRecord, shouldRetire, retiredAtTruthy, shouldForciblyClose,
      secondsSinceRetirement, markResourceAsRetired, poolOptsForcible,
      retiredRecord, poolWithRetired,
      show ((6000 : ℚ) - 1000 = 5000) from by norm_num,
      show ((10 : WithTop ℚ) ≤ 5000) from by
        exact_mod_cast (by norm_num : (10 : ℚ) ≤ 5000)]

/-- C5 counterexample: the claim says `_getAvailableCapacity` computes
the per-record term as `max(0, maxConcurrentLeasesPerResource -
|activeLeases|)`.  The source has no clamping: on the state an `acquire`
produces under `maxConcurrentLeasesPerResource = 0` (one non-retired
record carrying one lease), the source computes capacity `-1` while the
claimed formula gives `0`. -/
theorem claim5_counterexample_capacity_not_clamped :
    getAvailableCapacity poolOptsZeroLease poolOverLeased = -1
    ∧ specAvailableCapacity poolOptsZeroLease poolOverLeased = 0
    ∧ getAvailableCapacity poolOptsZeroLease poolOverLeased
        ≠ specAvailableCapacity poolOptsZeroLease poolOverLeased := by
  decide

/-- The waiter-waking loop resolves exactly the first
`max(0, capacity)`-many waiters (bounded by the queue length): it splits
the FIFO queue into the `take`/`drop` at `capacity.toNat`. -/
theorem dequeueLoop_eq_take_drop (capacity : Int) (q : List Nat) :
    dequeueLoop capacity q = (q.take capacity.toNat, q.drop capacity.toNat) := by
  induction q generalizing capacity with
  | nil => simp [dequeueLoop]
  | cons w ws ih =>
    rw [dequeueLoop]
    by_cases h : capacity ≤ 0
    · have h0 : capacity.toNat = 0 := by omega
      simp [h, h0]
    · have h1 : capacity.toNat = (capacity - 1).toNat + 1 := by omega
      simp only [if_neg h, ih, h1]
      simp

/-- The per-record foldl of `_getAvailableCapacity`, rewritten as a
mapped sum: each record with a falsy `retiredAt` contributes its
unclamped spare capacity. -/
theorem capacity_foldl_eq_sum (M : Int) (l : List PoolRecord) (a : Int) :
    l.foldl
        (fun capacity r =>
          if retiredAtTruthy r then capacity
          else capacity + (M - (r.activeLeases.length : Int))) a
      = a + (l.map (fun r =>
          if retiredAtTruthy r then 0
          else M - (r.activeLeases.length : Int))).sum := by
  induction l generalizing a with
  | nil => simp
  | cons r rs ih =>
    by_cases hret : retiredAtTruthy r <;> simp [hret, ih] <;> ring

/-- With a nonzero retirement stamp, JS truthiness of `retiredAt`
coincides with the field being set. -/
theorem truthy_eq_isSome_of_ne_zero (r : PoolRecord)
    (h : r.retiredAt ≠ some 0) : retiredAtTruthy r = r.retiredAt.isSome := by
  unfold retiredAtTruthy
  cases hr : r.retiredAt with
  | none => simp
  | some q =>
    have hq : q ≠ 0 := fun e => h (by rw [hr, e])
    simp [hq]

/-- C5 (amended): `_getAvailableCapacity` computes the UNCLAMPED sum over
the records whose `retiredAt` is falsy — `undefined` or, `0` being falsy
in JavaScript, a retirement stamped at clock `0` — plus
`(maxResources - |records|) * maxConcurrentLeasesPerResource`.  This
coincides with the claimed formula (`max(0, ·)` per non-retired record)
whenever every current record holds at most
`maxConcurrentLeasesPerResource` active leases and no record was retired
at clock `0`.  The waking phase of `_updateAvailableResources` resolves
exactly `min(max(0, capacity), |waiters|)` waiters, always the oldest
first — the woken waiters are the `take` prefix of the FIFO acquire
queue measured on the state left by the retirement/destruction/top-up
phases. -/
theorem claim5_capacity_formula_and_fifo_wake :
    (∀ (opts : PoolOptions) (st : PoolState),
      getAvailableCapacity opts st
        = ((poolRecords st).map (fun r =>
            if retiredAtTruthy r then 0
            else (opts.maxConcurrentLeasesPerResource : Int) -
              (r.activeLeases.length : Int))).sum
          + ((opts.maxResources : Int) - (st.poolIds.length : Int)) *
              (opts.maxConcurrentLeasesPerResource : Int))
    ∧ (∀ (opts : PoolOptions) (st : PoolState),
      (∀ r ∈ poolRecords st,
          r.activeLeases.length ≤ opts.maxConcurrentLeasesPerResource) →
      (∀ r ∈ poolRecords st, r.retiredAt ≠ some 0) →
      getAvailableCapacity opts st = specAvailableCapacity opts st)
    ∧ (∀ (capacity : Int) (q : List Nat),
        dequeueLoop capacity q = (q.take capacity.toNat, q.drop capacity.toNat)
        ∧ (q.take capacity.toNat).length = min capacity.toNat q.length)
    ∧ (∀ (fuel : Nat) (opts : PoolOptions) (now : ℚ) (st : PoolState),
        (updateAvailableResources (fuel + 1) opts now st).wokenLog
          = (revalidatePhases fuel opts now st).wokenLog
            ++ (revalidatePhases fuel opts now st).acquireQueue.take
                (getAvailableCapacity opts (revalidatePhases fuel opts now st)).toNat
        ∧ (updateAvailableResources (fuel + 1) opts now st).acquireQueue
          = (revalidatePhases fuel opts now st).acquireQueue.drop
              (getAvailableCapacity opts (revalidatePhases fuel opts now st)).toNat) := by
  refine ⟨?_, ?_, ?_, ?_⟩
  · intro opts st
    unfold getAvailableCapacity
    rw [capacity_foldl_eq_sum]
    ring
  · intro opts st h hz
    unfold getAvailableCapacity specAvailableCapacity
    rw [capacity_foldl_eq_sum]
    have hmap : (poolRecords st).map (fun r =>
          if retiredAtTruthy r then 0
          else (opts.maxConcurrentLeasesPerResource : Int) -
            (r.activeLeases.length : Int))
        = (poolRecords st).map (fun r =>
          if r.retiredAt.isSome then 0
          else max 0 ((opts.maxConcurrentLeasesPerResource : Int) -
            (r.activeLeases.length : Int))) := by
      refine List.map_congr_left (fun r hr => ?_)
      rw [truthy_eq_isSome_of_ne_zero r (hz r hr)]
      by_cases hs : r.retiredAt.isSome
      · simp [hs]
      · have hle : (r.activeLeases.length : Int)
            ≤ (opts.maxConcurrentLeasesPerResource : Int) := by
          exact_mod_cast h r hr
        simp [hs, max_eq_right (sub_nonneg.mpr hle)]
    rw [hmap]
    ring
  · intro capacity q
    exact ⟨dequeueLoop_eq_take_drop capacity q, by simp⟩
  · intro fuel opts now st
    constructor <;>
      · simp only [updateAvailableResources, revalidatePhases]
        rw [dequeueLoop_eq_take_drop]

/-- C5 witness: the amended theorem at a pool whose single record holds
one lease under a cap of one, and at a concrete waking loop. -/
theorem claim5_witness :
    getAvailableCapacity poolOptsPlain poolOneLease
        = specAvailableCapacity poolOptsPlain poolOneLease
    ∧ dequeueLoop 3 [5, 6] = ([5, 6], []) := by
  constructor
  · exact claim5_capacity_formula_and_fifo_wake.2.1 poolOptsPlain poolOneLease
      (by decide) (by decide)
  · have h := (claim5_capacity_formula_and_fifo_wake.2.2.1 3 [5, 6]).1
    simpa using h

/-- C8 counterexample: the claim says a second `drain()` performs no
state transition out of DRAINED.  On a fully drained queue, the first
synchronous step of `drain()` unconditionally assigns DRAINING — a
transition out of the allegedly terminal DRAINED state. -/
theorem claim8_counterexample_drain_leaves_drained :
    (runQ qOptsDefault [.drainStep 0, .drainFinish] initQueue).qstate
        = QueueState.drained
    ∧ (drainBegin qOptsDefault 1
        (runQ qOptsDefault [.drainStep 0, .drainFinish] initQueue)).qstate
        = QueueState.draining
    ∧ QueueState.draining ≠ QueueState.drained := by
  decide

/-- C8 (amended): on a DRAINED queue with empty QUEUED and ACTIVE
buckets, a second `drain()` transiently re-enters DRAINING (observable
between its awaits) and then returns the queue to exactly the state it
started from; end-to-end the call is idempotent. -/
theorem claim8_second_drain_transient_draining_then_unchanged :
    ∀ (opts : QueueOptions) (now : Nat) (st : QueueSt),
      st.qstate = .drained → st.queued = [] → st.active = [] →
      drainEnd (drainBegin opts now st) = st
      ∧ (drainBegin opts now st).qstate = .draining := by
  intro opts now st hq hqd hac
  obtain ⟨s1, s2, s3, s4, s5, s6, s7, s8, s9, s10⟩ := st
  simp only at hq hqd hac
  subst hq hqd hac
  constructor
  · simp [drainBegin, drainEnd]
  · simp [drainBegin]

/-- C8 witness: the amended theorem applied to the concrete drained
queue. -/
theorem claim8_witness :
    drainEnd (drainBegin qOptsDefault 1 drainedQueue) = drainedQueue
    ∧ (drainBegin qOptsDefault 1 drainedQueue).qstate = .draining :=
  claim8_second_drain_transient_draining_then_unchanged qOptsDefault 1
    drainedQueue (by decide) (by decide) (by decide)

/-- Mutating one record in place preserves duplicate-freeness of all
`pastLeases` lists, provided the mutation itself does. -/
theorem pastNodup_updRecord (f : PoolRecord → PoolRecord)
    (hf : ∀ r, r.pastLeases.Nodup → (f r).pastLeases.Nodup) (rid : Nat)
    {st : PoolState} (h : PastLeasesNodup st) :
    PastLeasesNodup (updRecord f rid st) := by
  intro r hr
  simp only [updRecord, List.mem_map] at hr
  obtain ⟨r0, hr0, rfl⟩ := hr
  by_cases hid : r0.id = rid
  · simpa [hid] using hf r0 (h r0 hr0)
  · simpa [hid] using h r0 hr0

/-- The guarded push of `_markResourceAsReleased` never duplicates an
entry of `pastLeases`. -/
theorem pastNodup_core (st : PoolState) (l : PoolLease)
    (h : PastLeasesNodup st) :
    PastLeasesNodup (markResourceAsReleasedCore st l) := by
  have : PastLeasesNodup
      (updRecord
        (fun r =>
          { r with
            activeLeases := r.activeLeases.filter (fun lid => lid ≠ l.id),
            pastLeases :=
              if l.id ∈ r.pastLeases then r.pastLeases
              else r.pastLeases ++ [l.id] })
        l.recordId st) := by
    refine pastNodup_updRecord _ (fun r hr => ?_) l.recordId h
    by_cases hmem : l.id ∈ r.pastLeases
    · simpa [hmem] using hr
    · simp only [hmem, if_false]
      simp [List.nodup_append, hmem, hr]
  exact this

/-- `_markResourceAsRetired` does not touch any `pastLeases`. -/
theorem pastNodup_markRetired (now : ℚ) (st : PoolState) (rid : Nat)
    (h : PastLeasesNodup st) :
    PastLeasesNodup (markResourceAsRetired now st rid) :=
  pastNodup_updRecord (fun r => { r with retiredAt := some now })
    (fun _ hr => hr) rid h

/-- `_markResourcesForRetirement` does not touch any `pastLeases`. -/
theorem pastNodup_markForRetirement (opts : PoolOptions) (now : ℚ)
    (st : PoolState) (h : PastLeasesNodup st) :
    PastLeasesNodup (markResourcesForRetirement opts now st) := by
  unfold markResourcesForRetirement
  generalize (poolRecords st).filter (shouldRetire opts now) = l
  induction l generalizing st with
  | nil => exact h
  | cons r rs ih => exact ih _ (pastNodup_markRetired now st r.id h)

/-- `_createResource` adds a record with empty `pastLeases`. -/
theorem pastNodup_createResource (now : ℚ) (st : PoolState)
    (h : PastLeasesNodup st) :
    PastLeasesNodup (createResource now st) := by
  intro r hr
  simp only [createResource, List.mem_append, List.mem_singleton] at hr
  rcases hr with hr | rfl
  · exact h r hr
  · simp

/-- Repeated `_createResource` calls only add records with empty
`pastLeases`. -/
theorem pastNodup_createLoop (l : List Nat) (now : ℚ) :
    ∀ st : PoolState, PastLeasesNodup st →
      PastLeasesNodup (l.foldl (fun s _ => createResource now s) st) := by
  induction l with
  | nil => exact fun st h => h
  | cons n ns ih =>
    exact fun st h => ih (createResource now st) (pastNodup_createResource now st h)

/-- `_createMinimumResources` only adds records with empty
`pastLeases`. -/
theorem pastNodup_createMin (opts : PoolOptions) (now : ℚ) (st : PoolState)
    (h : PastLeasesNodup st) :
    PastLeasesNodup (createMinimumResources opts now st) := by
  unfold createMinimumResources
  by_cases hd : st.isDrained
  · simpa [hd] using h
  · simp only [hd, if_false]
    exact pastNodup_createLoop _ now st h

/-- Given preservation by `_updateAvailableResources` at a fixed fuel,
the remaining functions of the destroy/release knot preserve
`PastLeasesNodup` at that fuel. -/
theorem pastNodup_block (fuel : Nat)
    (hupd : ∀ (opts : PoolOptions) (now : ℚ) (st : PoolState),
      PastLeasesNodup st →
      PastLeasesNodup (updateAvailableResources fuel opts now st)) :
    (∀ (opts : PoolOptions) (now : ℚ) (st : PoolState) (l : PoolLease),
      PastLeasesNodup st →
      PastLeasesNodup (markResourceAsReleased fuel opts now st l))
    ∧ (∀ (opts : PoolOptions) (now : ℚ) (ls : List Nat) (st : PoolState),
      PastLeasesNodup st →
      PastLeasesNodup (releaseLeasesGo fuel opts now ls st))
    ∧ (∀ (opts : PoolOptions) (now : ℚ) (st : PoolState) (rid : Nat),
      PastLeasesNodup st →
      PastLeasesNodup (destroyResource fuel opts now st rid))
    ∧ (∀ (opts : PoolOptions) (now : ℚ) (ls : List Nat) (st : PoolState),
      PastLeasesNodup st →
      PastLeasesNodup (destroyRetiredResourcesGo fuel opts now ls st)) := by
  have hmr : ∀ (opts : PoolOptions) (now : ℚ) (st : PoolState) (l : PoolLease),
      PastLeasesNodup st →
      PastLeasesNodup (markResourceAsReleased fuel opts now st l) := by
    intro opts now st l h
    simp only [markResourceAsReleased]
    exact hupd opts now _ (pastNodup_core st l h)
  have hrel : ∀ (opts : PoolOptions) (now : ℚ) (ls : List Nat) (st : PoolState),
      PastLeasesNodup st →
      PastLeasesNodup (releaseLeasesGo fuel opts now ls st) := by
    intro opts now ls
    induction ls with
    | nil => intro st h; simpa only [releaseLeasesGo] using h
    | cons lid rest ih =>
      intro st h
      simp only [releaseLeasesGo]
      cases hfl : findLease st lid with
      | none => exact ih _ (by simpa [hfl] using h)
      | some l => exact ih _ (by simpa [hfl] using hmr opts now st l h)
  have hdes : ∀ (opts : PoolOptions) (now : ℚ) (st : PoolState) (rid : Nat),
      PastLeasesNodup st →
      PastLeasesNodup (destroyResource fuel opts now st rid) := by
    intro opts now st rid h
    simp only [destroyResource]
    refine pastNodup_updRecord (fun r => { r with destroyStarted := true })
      (fun _ hr => hr) rid ?_
    exact hrel opts now _ _ (fun r hr => h r hr)
  have hgo : ∀ (opts : PoolOptions) (now : ℚ) (ls : List Nat) (st : PoolState),
      PastLeasesNodup st →
      PastLeasesNodup (destroyRetiredResourcesGo fuel opts now ls st) := by
    intro opts now ls
    induction ls with
    | nil => intro st h; simpa only [destroyRetiredResourcesGo] using h
    | cons rid rest ih =>
      intro st h
      simp only [destroyRetiredResourcesGo]
      cases hfr : findRecord st rid with
      | none => exact ih _ (by simpa [hfr] using h)
      | some r =>
        by_cases hret : retiredAtTruthy r = false
        · exact ih _ (by simpa [hfr, hret] using h)
        · by_cases hdue : r.activeLeases = [] ∨ shouldForciblyClose opts now r = true
          · exact ih _ (by simpa [hfr, hret, hdue] using hdes opts now st rid h)
          · exact ih _ (by simpa [hfr, hret, hdue] using h)
  exact ⟨hmr, hrel, hdes, hgo⟩

/-- `_updateAvailableResources` preserves duplicate-freeness of every
record's `pastLeases`, for every fuel. -/
theorem pastNodup_updateAR :
    ∀ (fuel : Nat) (opts : PoolOptions) (now : ℚ) (st : PoolState),
      PastLeasesNodup st →
      PastLeasesNodup (updateAvailableResources fuel opts now st) := by
  intro fuel
  induction fuel with
  | zero => intro opts now st h; simpa only [updateAvailableResources] using h
  | succ f ih =>
    intro opts now st h
    simp only [updateAvailableResources]
    have h1 := pastNodup_markForRetirement opts now st h
    have h2 := (pastNodup_block f ih).2.2.2 opts now
      (markResourcesForRetirement opts now st).poolIds _ h1
    have h3 := pastNodup_createMin opts now _ h2
    exact fun r hr => h3 r hr

/-- C10: releasing is idempotent on lease bookkeeping.  (1)
`_markResourceAsReleased` preserves duplicate-freeness of every record's
`pastLeases` (the push is guarded by `includes`), no matter how many
times and from which path it runs — including the nested
destruction-triggered releases inside the revalidate step; (2) hence a
lease occurs at most once in its record's `pastLeases` afterwards; (3)
`release()` with an external lease id that is no longer in `_leaseById`
leaves the pool state — in particular every record's `activeLeases` and
`pastLeases` — completely unchanged, on the success path and on the
error/timeout path alike. -/
theorem claim10_release_idempotent_bookkeeping :
    (∀ (fuel : Nat) (opts : PoolOptions) (now : ℚ) (st : PoolState)
        (l : PoolLease),
      PastLeasesNodup st →
      PastLeasesNodup (markResourceAsReleased fuel opts now st l))
    ∧ (∀ (fuel : Nat) (opts : PoolOptions) (now : ℚ) (st : PoolState)
        (l : PoolLease) (r : PoolRecord),
      PastLeasesNodup st →
      r ∈ (markResourceAsReleased fuel opts now st l).allRecords →
      r.pastLeases.count l.id ≤ 1)
    ∧ (∀ (fuel : Nat) (opts : PoolOptions) (now : ℚ) (st : PoolState)
        (externalId : Nat) (errorAfterRelease : Bool),
      externalId ∉ st.leaseById →
      releasePool fuel opts now st externalId errorAfterRelease = st) := by
  have hmain : ∀ (fuel : Nat) (opts : PoolOptions) (now : ℚ) (st : PoolState)
      (l : PoolLease),
      PastLeasesNodup st →
      PastLeasesNodup (markResourceAsReleased fuel opts now st l) :=
    fun fuel => (pastNodup_block fuel (pastNodup_updateAR fuel)).1
  refine ⟨hmain, ?_, ?_⟩
  · intro fuel opts now st l r h hr
    exact List.nodup_iff_count_le_one.mp (hmain fuel opts now st l h r hr) l.id
  · intro fuel opts now st externalId errorAfterRelease h
    simp [releasePool, h]

/-- C10 witness: the theorem applied to a concrete pool with one record
and one active lease, and to a release of an unknown lease id. -/
theorem claim10_witness :
    PastLeasesNodup (markResourceAsReleased 2 poolOptsPlain 0 poolOneLease leaseTwo)
    ∧ releasePool 2 poolOptsPlain 0 poolOneLease 99 false = poolOneLease := by
  constructor
  · exact claim10_release_idempotent_bookkeeping.1 2 poolOptsPlain 0
      poolOneLease leaseTwo (by simp [PastLeasesNodup, poolOneLease])
  · exact claim10_release_idempotent_bookkeeping.2.2 2 poolOptsPlain 0
      poolOneLease 99 false (by decide)

/-- Inserting by key produces a permutation of consing. -/
theorem insertByKey_perm {α κ : Type} [LinearOrder κ] (key : α → κ) (x : α)
    (l : List α) : List.Perm (insertByKey key x l) (x :: l) := by
  induction l with
  | nil => exact List.Perm.refl _
  | cons y ys ih =>
    rw [insertByKey]
    by_cases h : key x < key y
    · simp [h]
    · simp only [if_neg h]
      exact (ih.cons y).trans (List.Perm.swap x y ys)

/-- The stable sort is a permutation of its input. -/
theorem stableSortByKey_perm {α κ : Type} [LinearOrder κ] (key : α → κ)
    (l : List α) : List.Perm (stableSortByKey key l) l := by
  have aux : ∀ (l : List α) (acc : List α),
      List.Perm (l.foldl (fun a x => insertByKey key x a) acc) (l ++ acc) := by
    intro l
    induction l with
    | nil => intro acc; simp
    | cons x xs ih =>
      intro acc
      refine ((ih _).trans ?_)
      refine (List.Perm.append_left xs (insertByKey_perm key x acc)).trans ?_
      exact List.perm_middle
  simpa using aux l []

/-- Inserting by key preserves sortedness by key. -/
theorem insertByKey_pairwise {α κ : Type} [LinearOrder κ] (key : α → κ)
    (x : α) (l : List α) (h : l.Pairwise (fun a b => key a ≤ key b)) :
    (insertByKey key x l).Pairwise (fun a b => key a ≤ key b) := by
  induction l with
  | nil => simp [insertByKey]
  | cons y ys ih =>
    rw [List.pairwise_cons] at h
    obtain ⟨hy, hys⟩ := h
    rw [insertByKey]
    by_cases hxy : key x < key y
    · simp only [if_pos hxy]
      refine List.Pairwise.cons ?_ (List.pairwise_cons.mpr ⟨hy, hys⟩)
      intro z hz
      rcases List.mem_cons.mp hz with rfl | hz
      · exact le_of_lt hxy
      · exact (le_of_lt hxy).trans (hy z hz)
    · simp only [if_neg hxy]
      refine List.Pairwise.cons ?_ (ih hys)
      intro z hz
      have hz1 : z ∈ x :: ys := (insertByKey_perm key x ys).mem_iff.mp hz
      rcases List.mem_cons.mp hz1 with rfl | hz1
      · exact le_of_not_lt hxy
      · exact hy z hz1

/-- The stable sort is sorted (weakly ascending) by key. -/
theorem stableSortByKey_pairwise {α κ : Type} [LinearOrder κ] (key : α → κ)
    (l : List α) :
    (stableSortByKey key l).Pairwise (fun a b => key a ≤ key b) := by
  have aux : ∀ (l : List α) (acc : List α),
      acc.Pairwise (fun a b => key a ≤ key b) →
      (l.foldl (fun a x => insertByKey key x a) acc).Pairwise
        (fun a b => key a ≤ key b) := by
    intro l
    induction l with
    | nil => exact fun acc h => h
    | cons x xs ih =>
      exact fun acc h => ih _ (insertByKey_pairwise key x acc h)
  exact aux l [] (by simp)

/-- Two members of the two sides of an append with duplicate-free mapped
keys have distinct keys. -/
theorem nodup_map_append_ne {α β : Type} (f : α → β) {l1 l2 : List α}
    (h : ((l1 ++ l2).map f).Nodup) {a b : α} (ha : a ∈ l1) (hb : b ∈ l2) :
    f b ≠ f a := by
  rw [List.map_append, List.nodup_append] at h
  intro e
  exact h.2.2 (List.mem_map_of_mem f ha) (e ▸ List.mem_map_of_mem f hb)

/-- Under bucket coherence, every terminal-bucket task has a terminal
state. -/
theorem terminal_state_of_mem {st : QueueSt} {t : Task}
    (hcs : ∀ u ∈ st.succeeded, u.state = .succeeded)
    (hcf : ∀ u ∈ st.failed, u.state = .failed)
    (hcc : ∀ u ∈ st.cancelled, u.state = .cancelled)
    (hmem : t ∈ terminalTasks st) :
    t.state = .succeeded ∨ t.state = .failed ∨ t.state = .cancelled := by
  rcases List.mem_append.mp hmem with h | h
  · rcases List.mem_append.mp h with h | h
    · exact Or.inl (hcs t h)
    · exact Or.inr (Or.inl (hcf t h))
  · exact Or.inr (Or.inr (hcc t h))

/-- One GC eviction step, on a well-formed state: the terminal buckets
lose exactly the tasks carrying the evicted id, the QUEUED and ACTIVE
buckets are untouched, the evicted task is logged with its listeners
detached, and coherence of the terminal buckets is preserved. -/
theorem evictTask_spec (st : QueueSt) (t : Task)
    (hmem : t ∈ terminalTasks st)
    (hnd : ((terminalTasks st).map (fun u => u.id)).Nodup)
    (hcs : ∀ u ∈ st.succeeded, u.state = .succeeded)
    (hcf : ∀ u ∈ st.failed, u.state = .failed)
    (hcc : ∀ u ∈ st.cancelled, u.state = .cancelled) :
    terminalTasks (evictTask st t)
        = (terminalTasks st).filter (fun u => u.id ≠ t.id)
    ∧ (evictTask st t).queued = st.queued
    ∧ (evictTask st t).active = st.active
    ∧ (evictTask st t).evictLog = st.evictLog ++ [{ t with listeners := 0 }]
    ∧ (∀ u ∈ (evictTask st t).succeeded, u.state = .succeeded)
    ∧ (∀ u ∈ (evictTask st t).failed, u.state = .failed)
    ∧ (∀ u ∈ (evictTask st t).cancelled, u.state = .cancelled) := by
  have hstate := terminal_state_of_mem hcs hcf hcc hmem
  have hSmem : t.state = TaskState.succeeded → t ∈ st.succeeded := by
    intro hs
    rcases List.mem_append.mp hmem with h | h
    · rcases List.mem_append.mp h with h | h
      · exact h
      · exact absurd (hcf t h) (by simp [hs])
    · exact absurd (hcc t h) (by simp [hs])
  have hFmem : t.state = TaskState.failed → t ∈ st.failed := by
    intro hs
    rcases List.mem_append.mp hmem with h | h
    · rcases List.mem_append.mp h with h | h
      · exact absurd (hcs t h) (by simp [hs])
      · exact h
    · exact absurd (hcc t h) (by simp [hs])
  have hCmem : t.state = TaskState.cancelled → t ∈ st.cancelled := by
    intro hs
    rcases List.mem_append.mp hmem with h | h
    · rcases List.mem_append.mp h with h | h
      · exact absurd (hcs t h) (by simp [hs])
      · exact absurd (hcf t h) (by simp [hs])
    · exact h
  have hndSF : ((st.succeeded ++ st.failed).map (fun u => u.id)).Nodup := by
    refine List.Nodup.sublist (List.Sublist.map _ ?_) hnd
    exact (List.sublist_append_left _ _)
  have hfs : ∀ u ∈ st.succeeded, u ∈ st.succeeded ++ st.failed :=
    fun u hu => List.mem_append_left _ hu
  have hff : ∀ u ∈ st.failed, u ∈ st.succeeded ++ st.failed :=
    fun u hu => List.mem_append_right _ hu
  have fself : ∀ (l : List Task), (∀ u ∈ l, u.id ≠ t.id) →
      l.filter (fun u => u.id ≠ t.id) = l := by
    intro l h
    refine List.filter_eq_self.mpr (fun u hu => by simpa using h u hu)
  rcases hstate with hs | hs | hs
  · have htS := hSmem hs
    have eF : st.failed.filter (fun u => u.id ≠ t.id) = st.failed :=
      fself _ (fun u hu => nodup_map_append_ne _ hndSF htS hu)
    have eC : st.cancelled.filter (fun u => u.id ≠ t.id) = st.cancelled :=
      fself _ (fun u hu => nodup_map_append_ne _ hnd (hfs t htS) hu)
    simp only [evictTask, hs]
    refine ⟨?_, trivial, trivial, trivial, ?_, ?_, ?_⟩
    · simp only [terminalTasks, List.filter_append, eF, eC]
    · exact fun u hu => hcs u (List.mem_of_mem_filter hu)
    · exact hcf
    · exact hcc
  · have htF := hFmem hs
    have eS : st.succeeded.filter (fun u => u.id ≠ t.id) = st.succeeded :=
      fself _ (fun u hu => (nodup_map_append_ne _ hndSF hu htF).symm)
    have eC : st.cancelled.filter (fun u => u.id ≠ t.id) = st.cancelled :=
      fself _ (fun u hu => nodup_map_append_ne _ hnd (hff t htF) hu)
    simp only [evictTask, hs]
    refine ⟨?_, trivial, trivial, trivial, ?_, ?_, ?_⟩
    · simp only [terminalTasks, List.filter_append, eS, eC]
    · exact hcs
    · exact fun u hu => hcf u (List.mem_of_mem_filter hu)
    · exact hcc
  · have htC := hCmem hs
    have eS : st.succeeded.filter (fun u => u.id ≠ t.id) = st.succeeded :=
      fself _ (fun u hu => (nodup_map_append_ne _ hnd (hfs u hu) htC).symm)
    have eF : st.failed.filter (fun u => u.id ≠ t.id) = st.failed :=
      fself _ (fun u hu => (nodup_map_append_ne _ hnd (hff u hu) htC).symm)
    simp only [evictTask, hs]
    refine ⟨?_, trivial, trivial, trivial, ?_, ?_, ?_⟩
    · simp only [terminalTasks, List.filter_append, eS, eF]
    · exact hcs
    · exact hcf
    · exact fun u hu => hcc u (List.mem_of_mem_filter hu)

/-- The GC eviction loop, on a well-formed state, filters exactly the
evicted ids out of the terminal buckets and logs each evicted task with
its listeners detached. -/
theorem foldl_evict_spec (ts : List Task) : ∀ (st : QueueSt),
    (∀ t ∈ ts, t ∈ terminalTasks st) →
    ((ts.map (fun t => t.id)).Nodup) →
    (((terminalTasks st).map (fun u => u.id)).Nodup) →
    (∀ u ∈ st.succeeded, u.state = .succeeded) →
    (∀ u ∈ st.failed, u.state = .failed) →
    (∀ u ∈ st.cancelled, u.state = .cancelled) →
    terminalTasks (ts.foldl evictTask st)
        = (terminalTasks st).filter
            (fun u => u.id ∉ ts.map (fun t => t.id))
    ∧ (ts.foldl evictTask st).evictLog
        = st.evictLog ++ ts.map (fun t => { t with listeners := 0 }) := by
  induction ts with
  | nil =>
    intro st _ _ _ _ _ _
    constructor
    · simp
    · simp
  | cons t rest ih =>
    intro st hmem hndts hnd hcs hcf hcc
    have hspec := evictTask_spec st t (hmem t (by simp)) hnd hcs hcf hcc
    obtain ⟨hterm, _, _, hlog, hcs1, hcf1, hcc1⟩ := hspec
    have hndrest : ((rest.map (fun t => t.id)).Nodup) := by
      simpa using hndts.of_cons
    have htid : t.id ∉ rest.map (fun t => t.id) := by
      have := hndts
      rw [List.map_cons, List.nodup_cons] at this
      exact this.1
    have hmem1 : ∀ u ∈ rest, u ∈ terminalTasks (evictTask st t) := by
      intro u hu
      rw [hterm, List.mem_filter]
      refine ⟨hmem u (by simp [hu]), ?_⟩
      have : u.id ≠ t.id := by
        intro e
        exact htid (e ▸ List.mem_map_of_mem _ hu)
      simpa using this
    have hnd1 : (((terminalTasks (evictTask st t)).map (fun u => u.id)).Nodup) := by
      rw [hterm]
      exact List.Nodup.sublist (List.Sublist.map _ (List.filter_sublist _)) hnd
    obtain ⟨ihterm, ihlog⟩ := ih (evictTask st t) hmem1 hndrest hnd1 hcs1 hcf1 hcc1
    constructor
    · rw [List.foldl_cons, ihterm, hterm, List.filter_filter]
      refine List.filter_congr (fun u _ => ?_)
      simp only [List.map_cons, List.mem_cons, not_or]
      by_cases h1 : u.id = t.id <;> by_cases h2 : u.id ∈ rest.map (fun t => t.id) <;>
        simp [h1, h2]
    · rw [List.foldl_cons, ihlog, hlog]
      simp

/-- C7 counterexample: the claim breaks ties on `completedAt` by
insertion (terminal-transition) order.  In the run `gcTieEvents`, task 1
is cancelled first and task 2 succeeds second, both stamped
`completedAt = 5`; the claim therefore keeps the more recent task 2.  The
source concatenates SUCCEEDED ++ FAILED ++ CANCELLED before its stable
sort, so among tied timestamps the SUCCEEDED task counts as older: it
evicts task 2 and keeps task 1. -/
theorem claim7_counterexample_tie_broken_by_bucket_order :
    (terminalTasks (runQ qOptsMemOne gcTieEvents initQueue)).map (fun t => t.id)
        = [1]
    ∧ (runQ qOptsMemOne gcTieEvents initQueue).succeeded = []
    ∧ (runQ qOptsMemOne gcTieEvents initQueue).completionLog = [1, 2]
    ∧ (∀ t ∈ terminalTasks (runQ qOptsMemOne gcTieEvents initQueue),
        t.completedAt = some 5)
    ∧ (runQ qOptsMemOne gcTieEvents initQueue).evictLog.map (fun t => t.id)
        = [2]
    ∧ specGcRetainedIds 1
        ((runQ qOptsMemOne gcTieEvents initQueue).cancelled
          ++ (runQ qOptsMemOne gcTieEvents initQueue).evictLog) = [2]
    ∧ ([1] : List Nat) ≠ [2] := by
  decide

/-- C7 (amended): after GC on a well-formed queue state the terminal
buckets retain exactly `min(|terminal|, maxCompletedTaskMemory)` tasks;
every evicted task's `(completedAt || Infinity)` key is at most every
retained task's key (most-recent-win, with ties resolved by position in
the SUCCEEDED ++ FAILED ++ CANCELLED concatenation rather than by
insertion order); the evicted tasks are exactly the `take` prefix of the
stable sort of that concatenation; and every evicted task has its
progress listeners detached. -/
theorem claim7_gc_keeps_stable_sorted_suffix :
    ∀ (maxMem : Nat) (st : QueueSt),
      (((terminalTasks st).map (fun u => u.id)).Nodup) →
      (∀ u ∈ st.succeeded, u.state = .succeeded) →
      (∀ u ∈ st.failed, u.state = .failed) →
      (∀ u ∈ st.cancelled, u.state = .cancelled) →
      (terminalTasks (garbageCollectCompletedTasks maxMem st)).length
          = min (terminalTasks st).length maxMem
      ∧ (∀ u ∈ terminalTasks st,
          u.id ∉ (terminalTasks (garbageCollectCompletedTasks maxMem st)).map
              (fun w => w.id) →
          ∀ t ∈ terminalTasks (garbageCollectCompletedTasks maxMem st),
            gcKey u ≤ gcKey t)
      ∧ (garbageCollectCompletedTasks maxMem st).evictLog.drop
            st.evictLog.length
          = ((stableSortByKey gcKey (terminalTasks st)).take
              ((terminalTasks st).length - maxMem)).map
              (fun t => { t with listeners := 0 })
      ∧ (∀ t ∈ (garbageCollectCompletedTasks maxMem st).evictLog.drop
            st.evictLog.length, t.listeners = 0) := by
  intro maxMem st hnd hcs hcf hcc
  have hperm : List.Perm (stableSortByKey gcKey (terminalTasks st))
      (terminalTasks st) := stableSortByKey_perm gcKey (terminalTasks st)
  have hpair := stableSortByKey_pairwise gcKey (terminalTasks st)
  set L := terminalTasks st with hL
  set sorted := stableSortByKey gcKey L with hsortedDef
  set n := L.length - maxMem with hn
  set ev := sorted.take n with hevDef
  set keep := sorted.drop n with hkeepDef
  have hsplit : ev ++ keep = sorted := List.take_append_drop n sorted
  have hnds : ((sorted.map (fun u => u.id)).Nodup) :=
    ((hperm.map _).nodup_iff).mpr hnd
  have hgc : garbageCollectCompletedTasks maxMem st = ev.foldl evictTask st := rfl
  have hmemev : ∀ t ∈ ev, t ∈ L := by
    intro t ht
    exact hperm.mem_iff.mp ((List.take_sublist n sorted).subset ht)
  have hndev : ((ev.map (fun t => t.id)).Nodup) :=
    List.Nodup.sublist (List.Sublist.map _ (List.take_sublist n sorted)) hnds
  obtain ⟨hterm, hlog⟩ :=
    foldl_evict_spec ev st hmemev hndev hnd hcs hcf hcc
  rw [← hgc] at hterm hlog
  have hnds2 : (((ev ++ keep).map (fun u => u.id)).Nodup) := by
    rw [hsplit]; exact hnds
  have hkeepnot : ∀ u ∈ keep, u.id ∉ ev.map (fun t => t.id) := by
    intro u hu hin
    obtain ⟨w, hw, hwid⟩ := List.mem_map.mp hin
    exact nodup_map_append_ne _ hnds2 hw hu hwid.symm
  have hevfilter : ev.filter (fun u => u.id ∉ ev.map (fun t => t.id)) = [] := by
    refine List.filter_eq_nil_iff.mpr (fun u hu => ?_)
    simp [List.mem_map_of_mem (fun t => t.id) hu]
  have hkeepfilter :
      keep.filter (fun u => u.id ∉ ev.map (fun t => t.id)) = keep := by
    refine List.filter_eq_self.mpr (fun u hu => ?_)
    simpa using hkeepnot u hu
  have hfiltkeep :
      List.Perm (L.filter (fun u => u.id ∉ ev.map (fun t => t.id))) keep := by
    refine ((hperm.filter _).symm).trans ?_
    rw [← hsplit, List.filter_append, hevfilter, hkeepfilter, List.nil_append]
  have hlen : (terminalTasks (garbageCollectCompletedTasks maxMem st)).length
      = min L.length maxMem := by
    rw [hterm, hfiltkeep.length_eq, hkeepDef, List.length_drop,
      hperm.length_eq]
    omega
  refine ⟨hlen, ?_, ?_, ?_⟩
  · intro u hu hunotin t ht
    rw [hterm] at ht
    have htkeep : t ∈ keep := hfiltkeep.mem_iff.mp ht
    have huev : u ∈ ev := by
      have husorted : u ∈ ev ++ keep := by
        rw [hsplit]; exact hperm.mem_iff.mpr hu
      rcases List.mem_append.mp husorted with h | h
      · exact h
      · exfalso
        apply hunotin
        rw [hterm]
        refine List.mem_map_of_mem _ ?_
        rw [List.mem_filter]
        exact ⟨hu, by simpa using hkeepnot u h⟩
    have hpair2 : (ev ++ keep).Pairwise (fun a b => gcKey a ≤ gcKey b) := by
      rw [hsplit]; exact hpair
    exact (List.pairwise_append.mp hpair2).2.2 u huev t htkeep
  · rw [hlog]
    exact List.drop_left _ _
  · intro t ht
    rw [hlog, List.drop_left] at ht
    obtain ⟨w, _, rfl⟩ := List.mem_map.mp ht
    rfl

/-- C7 witness: the amended theorem at a concrete queue with two terminal
tasks and `maxCompletedTaskMemory = 1`. -/
theorem claim7_witness :
    (terminalTasks (garbageCollectCompletedTasks 1 gcWitnessState)).length
        = min (terminalTasks gcWitnessState).length 1
    ∧ (∀ t ∈ (garbageCollectCompletedTasks 1 gcWitnessState).evictLog.drop
        gcWitnessState.evictLog.length, t.listeners = 0) := by
  have h := claim7_gc_keeps_stable_sorted_suffix 1 gcWitnessState
    (by decide) (by decide) (by decide) (by decide)
  exact ⟨h.1, h.2.2.2⟩

/-- In-place task mutation does not change the size of the ACTIVE
bucket. -/
theorem active_len_updTask (f : Task → Task) (id : Nat) (st : QueueSt) :
    ((updTask f id st).active).length = st.active.length := by
  simp [updTask]

/-- A GC eviction never grows the ACTIVE bucket. -/
theorem active_len_evict (st : QueueSt) (t : Task) :
    ((evictTask st t).active).length ≤ st.active.length := by
  cases h : t.state <;> simp [evictTask, h] <;>
    exact List.length_filter_le _ _

/-- The GC eviction loop never grows the ACTIVE bucket. -/
theorem active_len_foldl_evict (ts : List Task) :
    ∀ st : QueueSt, ((ts.foldl evictTask st).active).length ≤ st.active.length := by
  induction ts with
  | nil => exact fun st => le_refl _
  | cons t rest ih =>
    exact fun st => (ih (evictTask st t)).trans (active_len_evict st t)

/-- GC never grows the ACTIVE bucket. -/
theorem active_len_gc (maxMem : Nat) (st : QueueSt) :
    ((garbageCollectCompletedTasks maxMem st).active).length ≤ st.active.length :=
  active_len_foldl_evict _ st

/-- `_processTaskCancellation` never grows the ACTIVE bucket. -/
theorem active_len_ptc (opts : QueueOptions) (now : Nat) (st : QueueSt)
    (id : Nat) :
    ((processTaskCancellation opts now st id).active).length
      ≤ st.active.length := by
  unfold processTaskCancellation
  cases findTask st id with
  | none => exact le_refl _
  | some t =>
    by_cases h : t.state ≠ TaskState.queued
    · simp [h]
    · simp only [h, if_false]
      exact active_len_gc _ _

/-- `_processTaskSuccess` never grows the ACTIVE bucket. -/
theorem active_len_psucc (opts : QueueOptions) (now : Nat) (st : QueueSt)
    (id result : Nat) :
    ((processTaskSuccess opts now st id result).active).length
      ≤ st.active.length := by
  unfold processTaskSuccess
  cases findTask st id with
  | none => exact le_refl _
  | some t =>
    by_cases h : t.state ≠ TaskState.active
    · simp [h]
    · simp only [h, if_false]
      exact (active_len_gc _ _).trans (List.length_filter_le _ _)

/-- `_processTaskFailure` never grows the ACTIVE bucket. -/
theorem active_len_pfail (opts : QueueOptions) (now : Nat) (st : QueueSt)
    (id : Nat) (reason : JsVal) :
    ((processTaskFailure opts now st id reason).active).length
      ≤ st.active.length := by
  unfold processTaskFailure
  by_cases hr : reason = JsVal.taskFailureError
  · simp [hr]
  · simp only [hr, if_false]
    cases findTask st id with
    | none => exact le_refl _
    | some t =>
      by_cases h : t.state ≠ TaskState.active
      · simp [h]
      · simp only [h, if_false]
        exact (active_len_gc _ _).trans (List.length_filter_le _ _)

/-- `_startNextIfPossible` keeps the ACTIVE bucket within the
concurrency bound: it only starts a task after checking
`|ACTIVE| < maxConcurrentTasks`. -/
theorem active_len_startNext (opts : QueueOptions) (st : QueueSt)
    (h : st.active.length ≤ opts.maxConcurrentTasks) :
    ((startNextIfPossible opts st).active).length
      ≤ opts.maxConcurrentTasks := by
  unfold startNextIfPossible
  by_cases h1 : st.qstate ≠ QueueState.running
  · simpa [h1] using h
  · simp only [h1, if_false]
    by_cases h2 : opts.maxConcurrentTasks ≤ st.active.length
    · simpa [h2] using h
    · simp only [h2, if_false]
      cases hq : st.queued with
      | nil => simpa using h
      | cons t rest => simp; omega

/-- `abort()` never grows the ACTIVE bucket. -/
theorem active_len_abort (opts : QueueOptions) (now : Nat) (st : QueueSt)
    (id : Nat) (reason : JsVal) :
    ((abortTask opts now st id reason).active).length ≤ st.active.length := by
  unfold abortTask
  cases findTask st id with
  | none => exact le_refl _
  | some t =>
    by_cases h : t.abortReason.isSome
    · simp [h]
    · simp only [h, Bool.false_eq_true, if_false]
      exact (active_len_ptc _ _ _ _).trans (le_of_eq (active_len_updTask _ _ _))

/-- A fold of aborts never grows the ACTIVE bucket. -/
theorem active_len_abort_fold (opts : QueueOptions) (now : Nat)
    (reason : JsVal) (ids : List Nat) :
    ∀ st : QueueSt,
      ((ids.foldl (fun s id => abortTask opts now s id reason) st).active).length
        ≤ st.active.length := by
  induction ids with
  | nil => exact fun st => le_refl _
  | cons i rest ih =>
    exact fun st => (ih _).trans (active_len_abort opts now st i reason)

/-- Every event preserves the concurrency bound on the ACTIVE bucket. -/
theorem active_len_step (opts : QueueOptions) (st : QueueSt) (e : QEvent)
    (h : st.active.length ≤ opts.maxConcurrentTasks) :
    ((stepQ opts st e).active).length ≤ opts.maxConcurrentTasks := by
  cases e with
  | enqueue now =>
    simp only [stepQ]
    unfold enqueueTask
    by_cases hd : st.qstate = QueueState.draining ∨ st.qstate = QueueState.drained
    · simpa [hd] using h
    · simp only [hd, if_false]
      exact active_len_startNext _ _ (by simpa using h)
  | start =>
    simp only [stepQ]
    unfold startQueue
    by_cases h1 : st.qstate = QueueState.running
    · simpa [h1] using h
    · simp only [h1, if_false]
      by_cases h2 : st.qstate ≠ QueueState.paused
      · simpa [h2] using h
      · simp only [h2, if_false]
        exact active_len_startNext _ _ (by simpa using h)
  | pause =>
    simp only [stepQ]
    unfold pauseQueue
    by_cases h1 : st.qstate = QueueState.paused
    · simpa [h1] using h
    · by_cases h2 : st.qstate ≠ QueueState.running
      · simp only [h1, if_false]
        simpa [h2] using h
      · simp only [h1, if_false, h2]
        simpa using h
  | sigAbort id reason now =>
    simp only [stepQ]
    exact (active_len_abort opts now st id reason).trans h
  | settleSuccess id result now =>
    simp only [stepQ]
    cases findTask st id with
    | none => exact h
    | some t =>
      by_cases hs : t.raceSettled
      · simpa [hs] using h
      · simp only [hs, Bool.false_eq_true, if_false]
        refine active_len_startNext _ _ ?_
        refine (active_len_psucc _ _ _ _ _).trans ?_
        rw [markRaceSettled, active_len_updTask]
        exact h
  | settleFailure id reason now =>
    simp only [stepQ]
    cases findTask st id with
    | none => exact h
    | some t =>
      by_cases hs : t.raceSettled
      · simpa [hs] using h
      · simp only [hs, Bool.false_eq_true, if_false]
        refine active_len_startNext _ _ ?_
        refine (active_len_pfail _ _ _ _ _).trans ?_
        rw [markRaceSettled, active_len_updTask]
        exact h
  | drainStep now =>
    simp only [stepQ]
    unfold drainBegin
    refine le_trans ?_ h
    refine (active_len_abort_fold _ _ _ _ _).trans ?_
    exact active_len_abort_fold _ _ _ _ _
  | drainFinish =>
    simp only [stepQ]
    unfold drainEnd
    by_cases hq : st.queued = [] ∧ st.active = []
    · simp [hq]
    · simpa [hq] using h
  | attachListener id =>
    simp only [stepQ]
    rw [active_len_updTask]
    exact h

/-- C6: in every state reachable from a fresh queue by any interleaving
of enqueues, start/pause, aborts, task settlements and drains, the ACTIVE
bucket never exceeds `maxConcurrentTasks`: the only transition into
ACTIVE is `_startNextIfPossible`, which checks the bound synchronously
before pushing. -/
theorem claim6_active_never_exceeds_max_concurrent :
    ∀ (opts : QueueOptions) (es : List QEvent),
      ((runQ opts es initQueue).active).length ≤ opts.maxConcurrentTasks := by
  intro opts es
  have aux : ∀ (es : List QEvent) (st : QueueSt),
      st.active.length ≤ opts.maxConcurrentTasks →
      ((runQ opts es st).active).length ≤ opts.maxConcurrentTasks := by
    intro es
    induction es with
    | nil => exact fun st h => h
    | cons e rest ih =>
      exact fun st h => ih _ (active_len_step opts st e h)
  exact aux es initQueue (by simp [initQueue])

/-- Filtering tasks by id commutes with projecting ids. -/
theorem map_id_filter_ne (l : List Task) (x : Nat) :
    (l.filter (fun u => u.id ≠ x)).map (fun u => u.id)
      = (l.map (fun u => u.id)).filter (fun i => i ≠ x) := by
  induction l with
  | nil => rfl
  | cons u us ih =>
    by_cases h : u.id = x
    · simpa [h, List.filter_cons, decide_not] using ih
    · simpa [h, List.filter_cons, decide_not] using ih

/-- In-place task mutation by an id-preserving function leaves the id
multiset untouched. -/
theorem map_id_updList (f : Task → Task) (id0 : Nat)
    (hid : ∀ t, (f t).id = t.id) (l : List Task) :
    ((l.map (fun t => if t.id = id0 then f t else t)).map (fun t => t.id))
      = l.map (fun t => t.id) := by
  rw [List.map_map]
  refine List.map_congr_left (fun t _ => ?_)
  by_cases h : t.id = id0 <;> simp [h, hid]

/-- `updTask` with an id-preserving mutation preserves `allIds`. -/
theorem allIds_updTask (f : Task → Task) (id0 : Nat)
    (hid : ∀ t, (f t).id = t.id) (st : QueueSt) :
    allIds (updTask f id0 st) = allIds st := by
  simp only [allIds, allTasks, updTask, List.map_append,
    map_id_updList f id0 hid]

/-- `updTask` with an id- and state-preserving mutation preserves
well-formedness. -/
theorem wf_updTask (f : Task → Task) (id0 : Nat)
    (hid : ∀ t, (f t).id = t.id) (hstate : ∀ t, (f t).state = t.state)
    (st : QueueSt) (h : QueueWF st) : QueueWF (updTask f id0 st) := by
  obtain ⟨h1, h2, h3, h4, h5, h6, h7⟩ := h
  have g : ∀ (l : List Task) (b : TaskState), (∀ t ∈ l, t.state = b) →
      ∀ t ∈ l.map (fun t => if t.id = id0 then f t else t), t.state = b := by
    intro l b hb t ht
    obtain ⟨u, hu, rfl⟩ := List.mem_map.mp ht
    by_cases h : u.id = id0 <;> simp [h, hstate, hb u hu]
  refine ⟨?_, ?_, g _ _ h3, g _ _ h4, g _ _ h5, g _ _ h6, g _ _ h7⟩
  · rw [allIds_updTask f id0 hid]; exact h1
  · rw [allIds_updTask f id0 hid]; exact h2

/-- `updTask` with a benign mutation preserves the stuck-task
configuration. -/
theorem stuck_updTask (f : Task → Task) (id0 : Nat)
    (hid : ∀ t, (f t).id = t.id) (hstate : ∀ t, (f t).state = t.state)
    (hrs : ∀ t, t.raceSettled = true → (f t).raceSettled = true)
    (hcr : ∀ t, (f t).completedResolved = t.completedResolved)
    (st : QueueSt) (id : Nat) (h : taskStuckActive st id) :
    taskStuckActive (updTask f id0 st) id := by
  obtain ⟨u, hu, hid1, hs1, hr1, hc1⟩ := h
  refine ⟨if u.id = id0 then f u else u, ?_, ?_, ?_, ?_, ?_⟩
  · exact List.mem_map_of_mem _ hu
  · by_cases h : u.id = id0
    · rw [if_pos h, hid]; exact hid1
    · rw [if_neg h]; exact hid1
  · by_cases h : u.id = id0
    · rw [if_pos h, hstate]; exact hs1
    · rw [if_neg h]; exact hs1
  · by_cases h : u.id = id0
    · rw [if_pos h]; exact hrs u hr1
    · rw [if_neg h]; exact hr1
  · by_cases h : u.id = id0
    · rw [if_pos h, hcr]; exact hc1
    · rw [if_neg h]; exact hc1

/-- `find?` by id returns the unique element carrying that id. -/
theorem find_eq_of_nodup_map {l : List Task} {u : Task}
    (h : (l.map (fun t => t.id)).Nodup) (hu : u ∈ l) :
    l.find? (fun t => t.id = u.id) = some u := by
  induction l with
  | nil => cases hu
  | cons v vs ih =>
    rw [List.map_cons, List.nodup_cons] at h
    by_cases hv : v.id = u.id
    · have : u = v := by
        rcases List.mem_cons.mp hu with rfl | hu2
        · rfl
        · exact absurd (hv ▸ List.mem_map_of_mem (fun t => t.id) hu2) h.1
      rw [this]
      exact List.find?_cons_of_pos _ (by simp [hv])
    · have hu2 : u ∈ vs := by
        rcases List.mem_cons.mp hu with rfl | hu2
        · exact absurd rfl hv
        · exact hu2
      rw [List.find?_cons_of_neg _ (by simp [hv])]
      exact ih h.2 hu2

/-- `findTask` on a well-formed state finds exactly the task object whose
id is asked for. -/
theorem findTask_unique {st : QueueSt} {u : Task} (h : QueueWF st)
    (hu : u ∈ allTasks st) : findTask st u.id = some u :=
  find_eq_of_nodup_map h.1 hu

/-- What `findTask` returns is a held task with the requested id. -/
theorem findTask_mem {st : QueueSt} {id : Nat} {t : Task}
    (h : findTask st id = some t) : t ∈ allTasks st ∧ t.id = id := by
  refine ⟨List.mem_of_find?_eq_some h, ?_⟩
  have := List.find?_some h
  simpa using this

/-- Under coherence, a held task with state QUEUED lives in the QUEUED
bucket. -/
theorem mem_queued_of_state {st : QueueSt} {t : Task} (h : QueueWF st)
    (ht : t ∈ allTasks st) (hs : t.state = .queued) : t ∈ st.queued := by
  obtain ⟨_, _, h3, h4, h5, h6, h7⟩ := h
  rcases List.mem_append.mp ht with h' | h'
  rotate_left
  · exact absurd (h7 t h') (by simp [hs])
  rcases List.mem_append.mp h' with h' | h'
  rotate_left
  · exact absurd (h6 t h') (by simp [hs])
  rcases List.mem_append.mp h' with h' | h'
  rotate_left
  · exact absurd (h5 t h') (by simp [hs])
  rcases List.mem_append.mp h' with h' | h'
  · exact h'
  · exact absurd (h4 t h') (by simp [hs])

/-- Under coherence, a held task with state ACTIVE lives in the ACTIVE
bucket. -/
theorem mem_active_of_state {st : QueueSt} {t : Task} (h : QueueWF st)
    (ht : t ∈ allTasks st) (hs : t.state = .active) : t ∈ st.active := by
  obtain ⟨_, _, h3, h4, h5, h6, h7⟩ := h
  rcases List.mem_append.mp ht with h' | h'
  rotate_left
  · exact absurd (h7 t h') (by simp [hs])
  rcases List.mem_append.mp h' with h' | h'
  rotate_left
  · exact absurd (h6 t h') (by simp [hs])
  rcases List.mem_append.mp h' with h' | h'
  rotate_left
  · exact absurd (h5 t h') (by simp [hs])
  rcases List.mem_append.mp h' with h' | h'
  · exact absurd (h3 t h') (by simp [hs])
  · exact h'

/-- A GC eviction only shrinks the held tasks. -/
theorem allTasks_evict_sublist (st : QueueSt) (t : Task) :
    List.Sublist (allTasks (evictTask st t)) (allTasks st) := by
  have fs : ∀ l : List Task,
      List.Sublist (l.filter (fun u => u.id ≠ t.id)) l :=
    fun l => List.filter_sublist _
  have rf : ∀ l : List Task, List.Sublist l l := fun l => List.Sublist.refl _
  cases h : t.state <;> simp only [allTasks, evictTask, h]
  · exact List.Sublist.append (List.Sublist.append (List.Sublist.append
      (List.Sublist.append (fs _) (rf _)) (rf _)) (rf _)) (rf _)
  · exact List.Sublist.append (List.Sublist.append (List.Sublist.append
      (List.Sublist.append (rf _) (fs _)) (rf _)) (rf _)) (rf _)
  · exact List.Sublist.append (List.Sublist.append
      (List.Sublist.append (rf _) (fs _)) (rf _)) (rf _)
  · exact List.Sublist.append (rf _) (fs _)
  · exact List.Sublist.append (List.Sublist.append (rf _) (fs _)) (rf _)

/-- A GC eviction keeps every bucket within its old contents and does not
touch the id allocator. -/
theorem evict_buckets_subset (st : QueueSt) (t : Task) :
    (evictTask st t).queued ⊆ st.queued
    ∧ (evictTask st t).active ⊆ st.active
    ∧ (evictTask st t).cancelled ⊆ st.cancelled
    ∧ (evictTask st t).failed ⊆ st.failed
    ∧ (evictTask st t).succeeded ⊆ st.succeeded
    ∧ (evictTask st t).nextId = st.nextId := by
  cases h : t.state <;>
    exact ⟨by simp [evictTask, h, List.filter_subset],
      by simp [evictTask, h, List.filter_subset],
      by simp [evictTask, h, List.filter_subset],
      by simp [evictTask, h, List.filter_subset],
      by simp [evictTask, h, List.filter_subset],
      by simp [evictTask, h]⟩

/-- A GC eviction preserves well-formedness. -/
theorem wf_evict (st : QueueSt) (t : Task) (h : QueueWF st) :
    QueueWF (evictTask st t) := by
  obtain ⟨h1, h2, h3, h4, h5, h6, h7⟩ := h
  obtain ⟨b1, b2, b3, b4, b5, b6⟩ := evict_buckets_subset st t
  have hs : List.Sublist (allIds (evictTask st t)) (allIds st) := by
    unfold allIds
    exact List.Sublist.map _ (allTasks_evict_sublist st t)
  have hsub : allIds (evictTask st t) ⊆ allIds st := hs.subset
  refine ⟨?_, ?_, ?_, ?_, ?_, ?_, ?_⟩
  · exact List.Nodup.sublist hs h1
  · exact fun i hi => b6 ▸ h2 i (hsub hi)
  · exact fun u hu => h3 u (b1 hu)
  · exact fun u hu => h4 u (b2 hu)
  · exact fun u hu => h5 u (b3 hu)
  · exact fun u hu => h6 u (b4 hu)
  · exact fun u hu => h7 u (b5 hu)

/-- The GC eviction loop preserves well-formedness. -/
theorem wf_foldl_evict (ts : List Task) :
    ∀ st : QueueSt, QueueWF st → QueueWF (ts.foldl evictTask st) := by
  induction ts with
  | nil => exact fun st h => h
  | cons t rest ih => exact fun st h => ih _ (wf_evict st t h)

/-- GC preserves well-formedness. -/
theorem wf_gc (maxMem : Nat) (st : QueueSt) (h : QueueWF st) :
    QueueWF (garbageCollectCompletedTasks maxMem st) :=
  wf_foldl_evict _ st h

/-- Evicting tasks with terminal states leaves QUEUED and ACTIVE
untouched. -/
theorem foldl_evict_queued_active (ts : List Task) :
    ∀ st : QueueSt,
      (∀ t ∈ ts, t.state = .succeeded ∨ t.state = .failed
        ∨ t.state = .cancelled) →
      (ts.foldl evictTask st).queued = st.queued
      ∧ (ts.foldl evictTask st).active = st.active := by
  induction ts with
  | nil => exact fun st _ => ⟨rfl, rfl⟩
  | cons t rest ih =>
    intro st hts
    have h1 : (evictTask st t).queued = st.queued
        ∧ (evictTask st t).active = st.active := by
      rcases hts t (by simp) with h | h | h <;> simp [evictTask, h]
    obtain ⟨ihq, iha⟩ := ih (evictTask st t) (fun u hu => hts u (by simp [hu]))
    exact ⟨ihq.trans h1.1, iha.trans h1.2⟩

/-- On a well-formed state, GC leaves the QUEUED and ACTIVE buckets
exactly as they were: it only ever evicts from the terminal buckets. -/
theorem gc_queued_active_eq (maxMem : Nat) (st : QueueSt)
    (hcs : ∀ u ∈ st.succeeded, u.state = .succeeded)
    (hcf : ∀ u ∈ st.failed, u.state = .failed)
    (hcc : ∀ u ∈ st.cancelled, u.state = .cancelled) :
    (garbageCollectCompletedTasks maxMem st).queued = st.queued
    ∧ (garbageCollectCompletedTasks maxMem st).active = st.active := by
  have hgc : garbageCollectCompletedTasks maxMem st
      = ((stableSortByKey gcKey (terminalTasks st)).take
          ((terminalTasks st).length - maxMem)).foldl evictTask st := rfl
  rw [hgc]
  refine foldl_evict_queued_active _ st (fun t ht => ?_)
  have hmem : t ∈ terminalTasks st :=
    (stableSortByKey_perm gcKey (terminalTasks st)).mem_iff.mp
      ((List.take_sublist _ _).subset ht)
  exact terminal_state_of_mem hcs hcf hcc hmem

/-- Stuckness only depends on the ACTIVE bucket. -/
theorem stuck_of_active_eq {st st' : QueueSt} {id : Nat}
    (h : st'.active = st.active) (hs : taskStuckActive st id) :
    taskStuckActive st' id := by
  obtain ⟨u, hu, h1, h2, h3, h4⟩ := hs
  exact ⟨u, h ▸ hu, h1, h2, h3, h4⟩

/-- Counting inside a filter that drops one id. -/
theorem count_filter_ne (ids : List Nat) (x i : Nat) :
    ((ids.filter (fun j => j ≠ x)).count i)
      = if i = x then 0 else ids.count i := by
  by_cases hix : i = x
  · subst hix
    rw [if_pos rfl, List.count_eq_zero]
    intro hmem
    have := List.of_mem_filter hmem
    simp at this
  · rw [if_neg hix]
    exact List.count_filter (by simp [hix])

/-- `_processTaskCancellation` preserves well-formedness. -/
theorem wf_ptc (opts : QueueOptions) (now : Nat) (st : QueueSt) (id : Nat)
    (h : QueueWF st) : QueueWF (processTaskCancellation opts now st id) := by
  unfold processTaskCancellation
  cases hf : findTask st id with
  | none => exact h
  | some t =>
    by_cases hguard : t.state ≠ TaskState.queued
    · simpa [hguard] using h
    · simp only [hguard, if_false]
      push_neg at hguard
      obtain ⟨hmem, hid⟩ := findTask_mem hf
      have htq : t ∈ st.queued := mem_queued_of_state h hmem hguard
      have hidq : id ∈ st.queued.map (fun u => u.id) :=
        hid ▸ List.mem_map_of_mem (fun u => u.id) htq
      apply wf_gc
      refine ⟨?_, ?_, ?_, ?_, ?_, ?_, ?_⟩
      · rw [List.nodup_iff_count_le_one]
        intro i
        have hold := List.nodup_iff_count_le_one.mp h.1 i
        have hq1 : 1 ≤ (st.queued.map (fun u => u.id)).count id :=
          List.count_pos_iff.mpr hidq
        simp only [allIds, allTasks, List.map_append, List.count_append]
          at hold ⊢
        rw [map_id_filter_ne, count_filter_ne]
        simp only [List.map_cons, List.map_nil, List.count_append, hid]
        by_cases hix : i = id
        · subst hix
          simp only [eq_self_iff_true, if_true]
          have hg : List.count i [i] = 1 := by simp
          omega
        · rw [if_neg hix]
          have h0 : List.count i [id] = 0 :=
            List.count_eq_zero.mpr (by simp [hix])
          omega
      · intro i hi
        apply h.2.1
        simp only [allIds, allTasks, List.map_append, List.mem_append] at hi ⊢
        rcases hi with (((hi | hi) | hi | hi) | hi) | hi
        · refine Or.inl (Or.inl (Or.inl (Or.inl ?_)))
          rw [map_id_filter_ne] at hi
          exact List.mem_of_mem_filter hi
        · exact Or.inl (Or.inl (Or.inl (Or.inr hi)))
        · exact Or.inl (Or.inl (Or.inr hi))
        · simp only [List.map_cons, List.map_nil, List.mem_singleton] at hi
          subst hi
          exact Or.inl (Or.inl (Or.inl (Or.inl
            (List.mem_map_of_mem (fun u => u.id) htq))))
        · exact Or.inl (Or.inr hi)
        · exact Or.inr hi
      · intro u hu
        exact (h.2.2.1) u (List.mem_of_mem_filter hu)
      · exact h.2.2.2.1
      · intro u hu
        rcases List.mem_append.mp hu with hu | hu
        · exact h.2.2.2.2.1 u hu
        · rw [List.mem_singleton] at hu
          subst hu
          rfl
      · exact h.2.2.2.2.2.1
      · exact h.2.2.2.2.2.2

/-- A list with pointwise smaller multiplicities than a duplicate-free
list is itself duplicate-free. -/
theorem count_le_nodup (l l' : List Nat)
    (hc : ∀ i, l'.count i ≤ l.count i) (h : l.Nodup) : l'.Nodup := by
  rw [List.nodup_iff_count_le_one] at h ⊢
  intro i
  exact le_trans (hc i) (h i)

/-- Pointwise smaller multiplicities also transfer membership. -/
theorem count_le_mem (l l' : List Nat)
    (hc : ∀ i, l'.count i ≤ l.count i) (i : Nat) (hi : i ∈ l') : i ∈ l :=
  List.count_pos_iff.mp (lt_of_lt_of_le (List.count_pos_iff.mpr hi) (hc i))

/-- The bucket shuffle of `_processTaskSuccess` before GC (ACTIVE loses
the task, SUCCEEDED gains its successor object) preserves
well-formedness. -/
theorem wf_succ_move (st : QueueSt) (t1 : Task) (id : Nat) (log : List Nat)
    (hid : t1.id = id) (hstate : t1.state = TaskState.succeeded)
    (hida : id ∈ st.active.map (fun u => u.id)) (h : QueueWF st) :
    QueueWF { st with active := st.active.filter (fun u => u.id ≠ id),
                      succeeded := st.succeeded ++ [t1],
                      completionLog := log } := by
  have ha1 : 1 ≤ (st.active.map (fun u => u.id)).count id :=
    List.count_pos_iff.mpr hida
  have hc : ∀ i,
      (allIds { st with active := st.active.filter (fun u => u.id ≠ id),
                        succeeded := st.succeeded ++ [t1],
                        completionLog := log }).count i
        ≤ (allIds st).count i := by
    intro i
    simp only [allIds, allTasks, List.map_append, List.count_append]
    rw [map_id_filter_ne, count_filter_ne]
    simp only [List.map_cons, List.map_nil, hid]
    by_cases hix : i = id
    · subst hix
      simp only [eq_self_iff_true, if_true]
      have hg : List.count i [i] = 1 := by simp
      omega
    · rw [if_neg hix]
      have h0 : List.count i [id] = 0 :=
        List.count_eq_zero.mpr (by simp [hix])
      omega
  refine ⟨count_le_nodup _ _ hc h.1,
          fun i hi => h.2.1 i (count_le_mem _ _ hc i hi),
          h.2.2.1, ?_, h.2.2.2.2.1, h.2.2.2.2.2.1, ?_⟩
  · intro u hu
    exact h.2.2.2.1 u (List.mem_of_mem_filter hu)
  · intro u hu
    rcases List.mem_append.mp hu with hu | hu
    · exact h.2.2.2.2.2.2 u hu
    · rw [List.mem_singleton] at hu
      subst hu
      exact hstate

/-- The bucket shuffle of `_processTaskFailure` before GC (ACTIVE loses
the task, FAILED gains its successor object) preserves well-formedness. -/
theorem wf_fail_move (st : QueueSt) (t1 : Task) (id : Nat) (log : List Nat)
    (hid : t1.id = id) (hstate : t1.state = TaskState.failed)
    (hida : id ∈ st.active.map (fun u => u.id)) (h : QueueWF st) :
    QueueWF { st with active := st.active.filter (fun u => u.id ≠ id),
                      failed := st.failed ++ [t1],
                      completionLog := log } := by
  have ha1 : 1 ≤ (st.active.map (fun u => u.id)).count id :=
    List.count_pos_iff.mpr hida
  have hc : ∀ i,
      (allIds { st with active := st.active.filter (fun u => u.id ≠ id),
                        failed := st.failed ++ [t1],
                        completionLog := log }).count i
        ≤ (allIds st).count i := by
    intro i
    simp only [allIds, allTasks, List.map_append, List.count_append]
    rw [map_id_filter_ne, count_filter_ne]
    simp only [List.map_cons, List.map_nil, hid]
    by_cases hix : i = id
    · subst hix
      simp only [eq_self_iff_true, if_true]
      have hg : List.count i [i] = 1 := by simp
      omega
    · rw [if_neg hix]
      have h0 : List.count i [id] = 0 :=
        List.count_eq_zero.mpr (by simp [hix])
      omega
  refine ⟨count_le_nodup _ _ hc h.1,
          fun i hi => h.2.1 i (count_le_mem _ _ hc i hi),
          h.2.2.1, ?_, h.2.2.2.2.1, ?_, h.2.2.2.2.2.2⟩
  · intro u hu
    exact h.2.2.2.1 u (List.mem_of_mem_filter hu)
  · intro u hu
    rcases List.mem_append.mp hu with hu | hu
    · exact h.2.2.2.2.2.1 u hu
    · rw [List.mem_singleton] at hu
      subst hu
      exact hstate

/-- `_processTaskSuccess` preserves well-formedness. -/
theorem wf_psucc (opts : QueueOptions) (now : Nat) (st : QueueSt) (id : Nat)
    (result : Nat) (h : QueueWF st) :
    QueueWF (processTaskSuccess opts now st id result) := by
  unfold processTaskSuccess
  cases hf : findTask st id with
  | none => exact h
  | some t =>
    by_cases hguard : t.state ≠ TaskState.active
    · simpa [hguard] using h
    · simp only [hguard, if_false]
      push_neg at hguard
      obtain ⟨hmem, hid⟩ := findTask_mem hf
      have hta : t ∈ st.active := mem_active_of_state h hmem hguard
      have hida : id ∈ st.active.map (fun u => u.id) :=
        hid ▸ List.mem_map_of_mem (fun u => u.id) hta
      exact wf_gc opts.maxCompletedTaskMemory _
        (wf_succ_move st _ id _ hid rfl hida h)

/-- `_processTaskFailure` preserves well-formedness. -/
theorem wf_pfail (opts : QueueOptions) (now : Nat) (st : QueueSt) (id : Nat)
    (reason : JsVal) (h : QueueWF st) :
    QueueWF (processTaskFailure opts now st id reason) := by
  unfold processTaskFailure
  by_cases hr : reason = JsVal.taskFailureError
  · simpa [hr] using h
  simp only [hr, if_false]
  cases hf : findTask st id with
  | none => exact h
  | some t =>
    by_cases hguard : t.state ≠ TaskState.active
    · simpa [hguard] using h
    · simp only [hguard, if_false]
      push_neg at hguard
      obtain ⟨hmem, hid⟩ := findTask_mem hf
      have hta : t ∈ st.active := mem_active_of_state h hmem hguard
      have hida : id ∈ st.active.map (fun u => u.id) :=
        hid ▸ List.mem_map_of_mem (fun u => u.id) hta
      exact wf_gc opts.maxCompletedTaskMemory _
        (wf_fail_move st _ id _ hid rfl hida h)

/-- `_startNextIfPossible` preserves well-formedness. -/
theorem wf_startNext (opts : QueueOptions) (st : QueueSt) (h : QueueWF st) :
    QueueWF (startNextIfPossible opts st) := by
  unfold startNextIfPossible
  by_cases h1 : st.qstate ≠ QueueState.running
  · simpa [h1] using h
  simp only [h1, if_false]
  by_cases h2 : opts.maxConcurrentTasks ≤ st.active.length
  · simpa [h2] using h
  simp only [h2, if_false]
  cases hq : st.queued with
  | nil => exact h
  | cons t rest =>
    have hc : ∀ i,
        (allIds { st with
                  queued := rest,
                  active := st.active ++ [{ t with state := TaskState.active }] }).count i
          ≤ (allIds st).count i := by
      intro i
      simp only [allIds, allTasks, hq, List.map_append, List.count_append,
        List.map_cons, List.map_nil, List.count_cons, List.count_nil]
      omega
    refine ⟨count_le_nodup _ _ hc h.1,
            fun i hi => h.2.1 i (count_le_mem _ _ hc i hi),
            ?_, ?_, h.2.2.2.2.1, h.2.2.2.2.2.1, h.2.2.2.2.2.2⟩
    · intro u hu
      exact h.2.2.1 u (hq ▸ List.mem_cons_of_mem t hu)
    · intro u hu
      rcases List.mem_append.mp hu with hu | hu
      · exact h.2.2.2.1 u hu
      · rw [List.mem_singleton] at hu
        subst hu
        rfl

/-- `enqueue` preserves well-formedness: the fresh task carries the
allocator id, which is strictly larger than every held id. -/
theorem wf_enqueue (opts : QueueOptions) (now : Nat) (st : QueueSt)
    (h : QueueWF st) : QueueWF (enqueueTask opts now st) := by
  unfold enqueueTask
  by_cases h1 : st.qstate = QueueState.draining ∨ st.qstate = QueueState.drained
  · simpa [h1] using h
  simp only [h1, if_false]
  apply wf_startNext
  have hnot : st.nextId ∉ allIds st := fun hmem => lt_irrefl _ (h.2.1 _ hmem)
  refine ⟨?_, ?_, ?_, h.2.2.2.1, h.2.2.2.2.1, h.2.2.2.2.2.1, h.2.2.2.2.2.2⟩
  · rw [List.nodup_iff_count_le_one]
    intro i
    have hold := List.nodup_iff_count_le_one.mp h.1 i
    have hz : (allIds st).count st.nextId = 0 := List.count_eq_zero.mpr hnot
    simp only [allIds, allTasks, List.map_append, List.count_append,
      List.map_cons, List.map_nil] at hold hz ⊢
    by_cases hix : i = st.nextId
    · subst hix
      have hg : List.count st.nextId [st.nextId] = 1 := by simp
      omega
    · have hg : List.count i [st.nextId] = 0 :=
        List.count_eq_zero.mpr (by simp [hix])
      omega
  · intro i hi
    have hb := h.2.1
    simp only [allIds, allTasks, List.map_append, List.mem_append] at hb
    simp only [allIds, allTasks, List.map_append, List.mem_append,
      List.map_cons, List.map_nil, List.mem_singleton] at hi
    rcases hi with ((((hi | hi) | hi) | hi) | hi) | hi
    · exact Nat.lt_succ_of_lt (hb i (Or.inl (Or.inl (Or.inl (Or.inl hi)))))
    · subst hi
      exact Nat.lt_succ_self _
    · exact Nat.lt_succ_of_lt (hb i (Or.inl (Or.inl (Or.inl (Or.inr hi)))))
    · exact Nat.lt_succ_of_lt (hb i (Or.inl (Or.inl (Or.inr hi))))
    · exact Nat.lt_succ_of_lt (hb i (Or.inl (Or.inr hi)))
    · exact Nat.lt_succ_of_lt (hb i (Or.inr hi))
  · intro u hu
    rcases List.mem_append.mp hu with hu | hu
    · exact h.2.2.1 u hu
    · rw [List.mem_singleton] at hu
      subst hu
      rfl

/-- `start()` preserves well-formedness. -/
theorem wf_start (opts : QueueOptions) (st : QueueSt) (h : QueueWF st) :
    QueueWF (startQueue opts st) := by
  unfold startQueue
  by_cases h1 : st.qstate = QueueState.running
  · rw [if_pos h1]; exact h
  rw [if_neg h1]
  by_cases h2 : st.qstate ≠ QueueState.paused
  · rw [if_pos h2]; exact h
  · rw [if_neg h2]
    exact wf_startNext opts _ h

/-- `pause()` preserves well-formedness. -/
theorem wf_pause (st : QueueSt) (h : QueueWF st) : QueueWF (pauseQueue st) := by
  unfold pauseQueue
  by_cases h1 : st.qstate = QueueState.paused
  · rw [if_pos h1]; exact h
  rw [if_neg h1]
  by_cases h2 : st.qstate ≠ QueueState.running
  · rw [if_pos h2]; exact h
  · rw [if_neg h2]; exact h

/-- `taskRef.abort` preserves well-formedness. -/
theorem wf_abort (opts : QueueOptions) (now : Nat) (st : QueueSt) (id : Nat)
    (reason : JsVal) (h : QueueWF st) :
    QueueWF (abortTask opts now st id reason) := by
  unfold abortTask
  cases hf : findTask st id with
  | none => exact h
  | some t =>
    by_cases hg : t.abortReason.isSome = true
    · simpa [hg] using h
    · simp only [hg, if_false]
      exact wf_ptc opts now _ id
        (wf_updTask (fun u => { u with abortReason := some reason }) id
          (fun u => rfl) (fun u => rfl) st h)

/-- The abort loops of `drain()` preserve well-formedness. -/
theorem wf_abort_fold (opts : QueueOptions) (now : Nat) (ids : List Nat) :
    ∀ st : QueueSt, QueueWF st →
      QueueWF (ids.foldl (fun s id => abortTask opts now s id (JsVal.jsError 0)) st) := by
  induction ids with
  | nil => exact fun st h => h
  | cons i is ih => exact fun st h => ih _ (wf_abort opts now st i _ h)

/-- The synchronous part of `drain()` preserves well-formedness. -/
theorem wf_drainBegin (opts : QueueOptions) (now : Nat) (st : QueueSt)
    (h : QueueWF st) : QueueWF (drainBegin opts now st) := by
  unfold drainBegin
  have h1 : QueueWF { st with qstate := QueueState.draining } := h
  exact wf_abort_fold opts now _ _ (wf_abort_fold opts now _ _ h1)

/-- The final state assignment of `drain()` preserves well-formedness. -/
theorem wf_drainEnd (st : QueueSt) (h : QueueWF st) : QueueWF (drainEnd st) := by
  unfold drainEnd
  by_cases h1 : st.queued = [] ∧ st.active = []
  · rw [if_pos h1]; exact h
  · rw [if_neg h1]; exact h

/-- Every event of the task queue preserves well-formedness. -/
theorem wf_step (opts : QueueOptions) (st : QueueSt) (e : QEvent)
    (h : QueueWF st) : QueueWF (stepQ opts st e) := by
  cases e with
  | enqueue now => exact wf_enqueue opts now st h
  | start => exact wf_start opts st h
  | pause => exact wf_pause st h
  | sigAbort id reason now => exact wf_abort opts now st id reason h
  | settleSuccess id result now =>
    simp only [stepQ]
    cases hf : findTask st id with
    | none => exact h
    | some t =>
      by_cases hr : t.raceSettled = true
      · simpa [hr] using h
      · simp only [hr, Bool.false_eq_true, if_false]
        exact wf_startNext opts _ (wf_psucc opts now (markRaceSettled id st)
          id result (wf_updTask (fun u => { u with raceSettled := true }) id
            (fun u => rfl) (fun u => rfl) st h))
  | settleFailure id reason now =>
    simp only [stepQ]
    cases hf : findTask st id with
    | none => exact h
    | some t =>
      by_cases hr : t.raceSettled = true
      · simpa [hr] using h
      · simp only [hr, Bool.false_eq_true, if_false]
        exact wf_startNext opts _ (wf_pfail opts now (markRaceSettled id st)
          id reason (wf_updTask (fun u => { u with raceSettled := true }) id
            (fun u => rfl) (fun u => rfl) st h))
  | drainStep now => exact wf_drainBegin opts now st h
  | drainFinish => exact wf_drainEnd st h
  | attachListener id =>
    simp only [stepQ]
    exact wf_updTask (fun u => { u with listeners := u.listeners + 1 }) id
      (fun u => rfl) (fun u => rfl) st h

/-- Any event sequence preserves well-formedness. -/
theorem wf_run (opts : QueueOptions) (es : List QEvent) :
    ∀ st : QueueSt, QueueWF st → QueueWF (runQ opts es st) := by
  induction es with
  | nil => exact fun st h => h
  | cons e es ih => exact fun st h => ih _ (wf_step opts st e h)

/-- Stuckness survives any change that only grows the ACTIVE bucket. -/
theorem stuck_of_active_subset {st st' : QueueSt} {id : Nat}
    (h : ∀ u ∈ st.active, u ∈ st'.active) (hs : taskStuckActive st id) :
    taskStuckActive st' id := by
  obtain ⟨u, hu, h1, h2, h3, h4⟩ := hs
  exact ⟨u, h u hu, h1, h2, h3, h4⟩

/-- GC (which, on a coherent state, only evicts from the terminal
buckets) preserves the stuck configuration. -/
theorem gc_stuck (maxMem : Nat) (st : QueueSt)
    (hcs : ∀ u ∈ st.succeeded, u.state = TaskState.succeeded)
    (hcf : ∀ u ∈ st.failed, u.state = TaskState.failed)
    (hcc : ∀ u ∈ st.cancelled, u.state = TaskState.cancelled)
    (id : Nat) (hs : taskStuckActive st id) :
    taskStuckActive (garbageCollectCompletedTasks maxMem st) id :=
  stuck_of_active_eq (gc_queued_active_eq maxMem st hcs hcf hcc).2 hs

/-- Incrementing the error counter preserves the stuck configuration. -/
theorem stuck_bump_errors (st : QueueSt) (id : Nat)
    (hs : taskStuckActive st id) :
    taskStuckActive { st with errorEvents := st.errorEvents + 1 } id := by
  obtain ⟨u, hu, h2, h3, h4, h5⟩ := hs
  exact ⟨u, hu, h2, h3, h4, h5⟩

/-- `_startNextIfPossible` preserves the stuck configuration: it only
ever appends to ACTIVE. -/
theorem stuck_startNext (opts : QueueOptions) (st : QueueSt) (id : Nat)
    (hs : taskStuckActive st id) :
    taskStuckActive (startNextIfPossible opts st) id := by
  unfold startNextIfPossible
  by_cases h1 : st.qstate ≠ QueueState.running
  · rw [if_pos h1]; exact hs
  rw [if_neg h1]
  by_cases h2 : opts.maxConcurrentTasks ≤ st.active.length
  · rw [if_pos h2]; exact hs
  rw [if_neg h2]
  cases hq : st.queued with
  | nil => exact hs
  | cons t rest =>
    exact stuck_of_active_subset (fun u hu => List.mem_append_left _ hu) hs

/-- `enqueue` preserves the stuck configuration. -/
theorem stuck_enqueue (opts : QueueOptions) (now : Nat) (st : QueueSt)
    (id : Nat) (hs : taskStuckActive st id) :
    taskStuckActive (enqueueTask opts now st) id := by
  unfold enqueueTask
  by_cases h1 : st.qstate = QueueState.draining ∨ st.qstate = QueueState.drained
  · simpa [h1] using hs
  simp only [h1, if_false]
  apply stuck_startNext
  obtain ⟨u, hu, h2, h3, h4, h5⟩ := hs
  exact ⟨u, hu, h2, h3, h4, h5⟩

/-- `start()` preserves the stuck configuration. -/
theorem stuck_start (opts : QueueOptions) (st : QueueSt) (id : Nat)
    (hs : taskStuckActive st id) : taskStuckActive (startQueue opts st) id := by
  unfold startQueue
  by_cases h1 : st.qstate = QueueState.running
  · rw [if_pos h1]; exact hs
  rw [if_neg h1]
  by_cases h2 : st.qstate ≠ QueueState.paused
  · rw [if_pos h2]; exact hs
  · rw [if_neg h2]
    apply stuck_startNext
    obtain ⟨u, hu, h3, h4, h5, h6⟩ := hs
    exact ⟨u, hu, h3, h4, h5, h6⟩

/-- `pause()` preserves the stuck configuration. -/
theorem stuck_pause (st : QueueSt) (id : Nat) (hs : taskStuckActive st id) :
    taskStuckActive (pauseQueue st) id := by
  unfold pauseQueue
  by_cases h1 : st.qstate = QueueState.paused
  · rw [if_pos h1]; exact hs
  rw [if_neg h1]
  by_cases h2 : st.qstate ≠ QueueState.running
  · rw [if_pos h2]; exact hs
  · rw [if_neg h2]
    obtain ⟨u, hu, h3, h4, h5, h6⟩ := hs
    exact ⟨u, hu, h3, h4, h5, h6⟩

/-- `_processTaskCancellation` preserves the stuck configuration: it
never touches the ACTIVE bucket. -/
theorem stuck_ptc (opts : QueueOptions) (now : Nat) (st : QueueSt)
    (id0 : Nat) (id : Nat) (h : QueueWF st) (hs : taskStuckActive st id) :
    taskStuckActive (processTaskCancellation opts now st id0) id := by
  unfold processTaskCancellation
  cases hf : findTask st id0 with
  | none => exact hs
  | some t =>
    by_cases hguard : t.state ≠ TaskState.queued
    · simpa [hguard] using hs
    · simp only [hguard, if_false]
      refine gc_stuck _ _ ?_ ?_ ?_ _ ?_
      · exact h.2.2.2.2.2.2
      · exact h.2.2.2.2.2.1
      · intro u hu
        rcases List.mem_append.mp hu with hu | hu
        · exact h.2.2.2.2.1 u hu
        · rw [List.mem_singleton] at hu
          subst hu
          rfl
      · obtain ⟨u, hu, h2, h3, h4, h5⟩ := hs
        exact ⟨u, hu, h2, h3, h4, h5⟩

/-- `taskRef.abort` preserves the stuck configuration: the abort reason
is recorded, but an ACTIVE task is never transitioned by the listener. -/
theorem stuck_abort (opts : QueueOptions) (now : Nat) (st : QueueSt)
    (id0 : Nat) (reason : JsVal) (id : Nat) (h : QueueWF st)
    (hs : taskStuckActive st id) :
    taskStuckActive (abortTask opts now st id0 reason) id := by
  unfold abortTask
  cases hf : findTask st id0 with
  | none => exact hs
  | some t =>
    by_cases hg : t.abortReason.isSome = true
    · simpa [hg] using hs
    · simp only [hg, if_false]
      exact stuck_ptc opts now _ id0 id
        (wf_updTask (fun u => { u with abortReason := some reason }) id0
          (fun u => rfl) (fun u => rfl) st h)
        (stuck_updTask (fun u => { u with abortReason := some reason }) id0
          (fun u => rfl) (fun u => rfl) (fun u hr => hr) (fun u => rfl)
          st id hs)

/-- The abort loops of `drain()` preserve the stuck configuration. -/
theorem stuck_abort_fold (opts : QueueOptions) (now : Nat) (ids : List Nat)
    (id : Nat) : ∀ st : QueueSt, QueueWF st → taskStuckActive st id →
    taskStuckActive
      (ids.foldl (fun s i => abortTask opts now s i (JsVal.jsError 0)) st)
      id := by
  induction ids with
  | nil => exact fun st _ hs => hs
  | cons i is ih =>
    exact fun st h hs =>
      ih _ (wf_abort opts now st i _ h) (stuck_abort opts now st i _ id h hs)

/-- The synchronous part of `drain()` preserves the stuck configuration:
aborting an ACTIVE task only records the reason. -/
theorem stuck_drainBegin (opts : QueueOptions) (now : Nat) (st : QueueSt)
    (id : Nat) (h : QueueWF st) (hs : taskStuckActive st id) :
    taskStuckActive (drainBegin opts now st) id := by
  unfold drainBegin
  have h1 : QueueWF { st with qstate := QueueState.draining } := h
  have hs1 : taskStuckActive { st with qstate := QueueState.draining } id := by
    obtain ⟨u, hu, h2, h3, h4, h5⟩ := hs
    exact ⟨u, hu, h2, h3, h4, h5⟩
  exact stuck_abort_fold opts now _ id _
    (wf_abort_fold opts now _ _ h1)
    (stuck_abort_fold opts now _ id _ h1 hs1)

/-- The final state assignment of `drain()` preserves the stuck
configuration (with a stuck ACTIVE task the guard in fact never fires). -/
theorem stuck_drainEnd (st : QueueSt) (id : Nat)
    (hs : taskStuckActive st id) : taskStuckActive (drainEnd st) id := by
  unfold drainEnd
  by_cases h1 : st.queued = [] ∧ st.active = []
  · rw [if_pos h1]
    obtain ⟨u, hu, h2, h3, h4, h5⟩ := hs
    exact ⟨u, hu, h2, h3, h4, h5⟩
  · rw [if_neg h1]; exact hs

/-- `_processTaskSuccess` for a different task id preserves the stuck
configuration. -/
theorem stuck_psucc (opts : QueueOptions) (now : Nat) (st : QueueSt)
    (id0 : Nat) (result : Nat) (id : Nat) (h : QueueWF st)
    (hne : id0 ≠ id) (hs : taskStuckActive st id) :
    taskStuckActive (processTaskSuccess opts now st id0 result) id := by
  unfold processTaskSuccess
  cases hf : findTask st id0 with
  | none => exact hs
  | some t =>
    by_cases hguard : t.state ≠ TaskState.active
    · simpa [hguard] using hs
    · simp only [hguard, if_false]
      refine gc_stuck _ _ ?_ ?_ ?_ _ ?_
      · intro u hu
        rcases List.mem_append.mp hu with hu | hu
        · exact h.2.2.2.2.2.2 u hu
        · rw [List.mem_singleton] at hu
          subst hu
          rfl
      · exact h.2.2.2.2.2.1
      · exact h.2.2.2.2.1
      · obtain ⟨u, hu, hid1, hs1, hr1, hc1⟩ := hs
        refine ⟨u, List.mem_filter.mpr ⟨hu, ?_⟩, hid1, hs1, hr1, hc1⟩
        simp [hid1, Ne.symm hne]

/-- `_processTaskFailure` for a different task id preserves the stuck
configuration. -/
theorem stuck_pfail (opts : QueueOptions) (now : Nat) (st : QueueSt)
    (id0 : Nat) (reason : JsVal) (id : Nat) (h : QueueWF st)
    (hne : id0 ≠ id) (hs : taskStuckActive st id) :
    taskStuckActive (processTaskFailure opts now st id0 reason) id := by
  unfold processTaskFailure
  by_cases hr : reason = JsVal.taskFailureError
  · simpa [hr] using hs
  simp only [hr, if_false]
  cases hf : findTask st id0 with
  | none => exact hs
  | some t =>
    by_cases hguard : t.state ≠ TaskState.active
    · simpa [hguard] using hs
    · simp only [hguard, if_false]
      apply stuck_bump_errors
      refine gc_stuck _ _ ?_ ?_ ?_ _ ?_
      · exact h.2.2.2.2.2.2
      · intro u hu
        rcases List.mem_append.mp hu with hu | hu
        · exact h.2.2.2.2.2.1 u hu
        · rw [List.mem_singleton] at hu
          subst hu
          rfl
      · exact h.2.2.2.2.1
      · obtain ⟨u, hu, hid1, hs1, hr1, hc1⟩ := hs
        refine ⟨u, List.mem_filter.mpr ⟨hu, ?_⟩, hid1, hs1, hr1, hc1⟩
        simp [hid1, Ne.symm hne]

/-- Every event of the task queue preserves the stuck configuration: a
settled race never fires its handlers again, and every other transition
leaves an ACTIVE task with a settled race in place. -/
theorem stuck_step (opts : QueueOptions) (st : QueueSt) (e : QEvent)
    (id : Nat) (h : QueueWF st) (hs : taskStuckActive st id) :
    taskStuckActive (stepQ opts st e) id := by
  cases e with
  | enqueue now => exact stuck_enqueue opts now st id hs
  | start => exact stuck_start opts st id hs
  | pause => exact stuck_pause st id hs
  | sigAbort id0 reason now => exact stuck_abort opts now st id0 reason id h hs
  | settleSuccess id0 result now =>
    simp only [stepQ]
    cases hf : findTask st id0 with
    | none => exact hs
    | some t =>
      by_cases hrt : t.raceSettled = true
      · simpa [hrt] using hs
      · simp only [hrt, Bool.false_eq_true, if_false]
        have hne : id0 ≠ id := by
          intro he
          obtain ⟨u, hu, hid1, _, hr1, _⟩ := hs
          have humem : u ∈ allTasks st :=
            List.mem_append.mpr (Or.inl (List.mem_append.mpr (Or.inl
              (List.mem_append.mpr (Or.inl (List.mem_append.mpr (Or.inr hu)))))))
          have hfu : findTask st u.id = some u := findTask_unique h humem
          rw [hid1, ← he, hf] at hfu
          injection hfu with h2
          exact hrt (by rw [h2]; exact hr1)
        exact stuck_startNext opts _ id (stuck_psucc opts now
          (markRaceSettled id0 st) id0 result id
          (wf_updTask (fun u => { u with raceSettled := true }) id0
            (fun u => rfl) (fun u => rfl) st h) hne
          (stuck_updTask (fun u => { u with raceSettled := true }) id0
            (fun u => rfl) (fun u => rfl) (fun u _ => rfl) (fun u => rfl)
            st id hs))
  | settleFailure id0 reason now =>
    simp only [stepQ]
    cases hf : findTask st id0 with
    | none => exact hs
    | some t =>
      by_cases hrt : t.raceSettled = true
      · simpa [hrt] using hs
      · simp only [hrt, Bool.false_eq_true, if_false]
        have hne : id0 ≠ id := by
          intro he
          obtain ⟨u, hu, hid1, _, hr1, _⟩ := hs
          have humem : u ∈ allTasks st :=
            List.mem_append.mpr (Or.inl (List.mem_append.mpr (Or.inl
              (List.mem_append.mpr (Or.inl (List.mem_append.mpr (Or.inr hu)))))))
          have hfu : findTask st u.id = some u := findTask_unique h humem
          rw [hid1, ← he, hf] at hfu
          injection hfu with h2
          exact hrt (by rw [h2]; exact hr1)
        exact stuck_startNext opts _ id (stuck_pfail opts now
          (markRaceSettled id0 st) id0 reason id
          (wf_updTask (fun u => { u with raceSettled := true }) id0
            (fun u => rfl) (fun u => rfl) st h) hne
          (stuck_updTask (fun u => { u with raceSettled := true }) id0
            (fun u => rfl) (fun u => rfl) (fun u _ => rfl) (fun u => rfl)
            st id hs))
  | drainStep now => exact stuck_drainBegin opts now st id h hs
  | drainFinish => exact stuck_drainEnd st id hs
  | attachListener id0 =>
    simp only [stepQ]
    exact stuck_updTask (fun u => { u with listeners := u.listeners + 1 }) id0
      (fun u => rfl) (fun u => rfl) (fun u hr => hr) (fun u => rfl) st id hs

/-- Any event sequence preserves the stuck configuration. -/
theorem stuck_run (opts : QueueOptions) (es : List QEvent) :
    ∀ (st : QueueSt) (id : Nat), QueueWF st → taskStuckActive st id →
      taskStuckActive (runQ opts es st) id := by
  induction es with
  | nil => exact fun st id _ hs => hs
  | cons e es ih =>
    exact fun st id h hs =>
      ih _ _ (wf_step opts st e h) (stuck_step opts st e id h hs)

/-- C9: when the `onTask` promise of an ACTIVE task (race not yet
settled, `completed` not yet resolved) rejects with a reason that is
itself a `TaskFailureError`, `_processTaskFailure` returns before any
state change, and no later event can ever move the task again: in every
subsequently reachable state the task sits in the ACTIVE bucket with
state ACTIVE, its `completed` promise is unresolved, and it occupies at
least one of the `maxConcurrentTasks` worker slots. -/
theorem claim9_taskfailureerror_rejection_wedges_task
    (opts : QueueOptions) (st : QueueSt) (t : Task) (now : Nat)
    (h : QueueWF st) (ht : t ∈ st.active)
    (hstate : t.state = TaskState.active)
    (hrace : t.raceSettled = false) (hcr : t.completedResolved = false)
    (es : List QEvent) :
    taskStuckActive (runQ opts es (stepQ opts st
      (QEvent.settleFailure t.id JsVal.taskFailureError now))) t.id
    ∧ 1 ≤ (runQ opts es (stepQ opts st
        (QEvent.settleFailure t.id JsVal.taskFailureError now))).active.length := by
  have hmem : t ∈ allTasks st :=
    List.mem_append.mpr (Or.inl (List.mem_append.mpr (Or.inl
      (List.mem_append.mpr (Or.inl (List.mem_append.mpr (Or.inr ht)))))))
  have hf : findTask st t.id = some t := findTask_unique h hmem
  have hstep : stepQ opts st (QEvent.settleFailure t.id JsVal.taskFailureError now)
      = startNextIfPossible opts (markRaceSettled t.id st) := by
    simp only [stepQ, hf, hrace, Bool.false_eq_true, if_false,
      processTaskFailure, eq_self_iff_true, if_true]
  have hwf1 : QueueWF (startNextIfPossible opts (markRaceSettled t.id st)) :=
    wf_startNext opts _ (wf_updTask (fun u => { u with raceSettled := true })
      t.id (fun u => rfl) (fun u => rfl) st h)
  have hs1 : taskStuckActive (markRaceSettled t.id st) t.id := by
    have hmm := List.mem_map_of_mem
      (fun u => if u.id = t.id then { u with raceSettled := true } else u) ht
    refine ⟨{ t with raceSettled := true }, ?_, rfl, hstate, rfl, hcr⟩
    show { t with raceSettled := true } ∈ (markRaceSettled t.id st).active
    simpa [markRaceSettled, updTask] using hmm
  have hrun : taskStuckActive (runQ opts es (stepQ opts st
      (QEvent.settleFailure t.id JsVal.taskFailureError now))) t.id := by
    rw [hstep]
    exact stuck_run opts es _ t.id hwf1 (stuck_startNext opts _ t.id hs1)
  refine ⟨hrun, ?_⟩
  obtain ⟨u, hu, _, _, _, _⟩ := hrun
  exact List.length_pos.mpr (List.ne_nil_of_mem hu)

/-- C9 witness: a started default queue with one ACTIVE task whose race
rejects with a `TaskFailureError` reason; the task is wedged both right
after the rejection and after a further drain attempt. -/
theorem claim9_witness :
    taskStuckActive (runQ qOptsDefault [.drainStep 7, .drainFinish]
      (stepQ qOptsDefault (runQ qOptsDefault oneActiveTaskEvents initQueue)
        (QEvent.settleFailure 1 JsVal.taskFailureError 5))) 1
    ∧ 1 ≤ (runQ qOptsDefault [.drainStep 7, .drainFinish]
        (stepQ qOptsDefault (runQ qOptsDefault oneActiveTaskEvents initQueue)
          (QEvent.settleFailure 1 JsVal.taskFailureError 5))).active.length :=
  claim9_taskfailureerror_rejection_wedges_task qOptsDefault
    (runQ qOptsDefault oneActiveTaskEvents initQueue)
    { id := 1, state := TaskState.active, queuedAt := 0, completedAt := none,
      output := none, error := none, abortReason := none,
      raceSettled := false, completedResolved := false, listeners := 0 }
    5
    (by refine ⟨by decide, by decide, by decide, by decide, by decide,
          by decide, by decide⟩)
    (by decide) rfl rfl rfl [.drainStep 7, .drainFinish]

end Claims

end Asyncronaut
